import Mathlib

/-!
Shallow embedding of the rlox tree-walking interpreter core
(src/resolver.rs, src/environment.rs, src/interpreter.rs, src/lox_value.rs,
src/expression.rs, src/statement.rs, src/error.rs), together with proofs
about the lexical resolver, the environment/closure model and the
statement/expression evaluator.

Modelling conventions:
* Rust methods taking `&mut self` become explicit state passing: a function
  from the state to a pair of a result and the updated state.  An early
  `return Err(..)?` in Rust keeps whatever mutations already happened, so
  errors are returned together with the state at the moment of the error.
* `Rc<RefCell<Frame>>` becomes an arena: the list of all allocated frames,
  with a `FrameRef` being the index of the frame in the arena.  `Rc<LoxFun>`
  and `Rc<ForeinFun>` likewise become indices into arenas held by the
  interpreter state; `Rc::ptr_eq` is equality of indices.
* `f64` is modelled by `F64`: NaN, the two infinities, and finite values as
  rationals (IEEE-754 `+0.0`/`-0.0` are conflated, matching `==` on them).
  Arithmetic is exact rational arithmetic; the programs verified here only
  compute with small integers, on which double arithmetic is exact.
* `HashMap` becomes an association list with insert-replacing semantics.
* Recursion through function calls is not structurally terminating, so the
  evaluator takes a fuel parameter and returns `none` when fuel runs out.
-/

namespace RLox

/-- Source location data attached to tokens and identifiers
(`expression.rs`, `DebugInfo`). -/
structure DebugInfo where
  line : Nat
  position : Nat
  lexeme : String
deriving DecidableEq

/-- An identifier occurrence: name, source location, and the unique
per-occurrence id assigned by the parser (`expression.rs`, `Identifier`). -/
structure Identifier where
  name : String
  debugInfo : DebugInfo
  id : Nat
deriving DecidableEq

/-- Model of `f64`.  `+0.0` and `-0.0` are conflated; finite doubles are
represented exactly as unnormalised fractions `num / den` of integers with
`den ≠ 0` (every operation below constructs a nonzero denominator from
nonzero denominators; equality and order read the fraction's value, so the
representation is never observable to the interpreted language). -/
inductive F64 where
  | nan : F64
  | inf : F64
  | neginf : F64
  | val : Int → Int → F64
deriving DecidableEq

/-- IEEE-754 `==` on doubles: NaN is not equal to anything, including
itself; finite values compare as fractions (cross-multiplication). -/
def F64.feq : F64 → F64 → Bool
  | .nan, _ => false
  | _, .nan => false
  | .inf, .inf => true
  | .neginf, .neginf => true
  | .val a b, .val c d => a * d == c * b
  | _, _ => false

def F64.add : F64 → F64 → F64
  | .nan, _ => .nan
  | _, .nan => .nan
  | .inf, .neginf => .nan
  | .neginf, .inf => .nan
  | .inf, _ => .inf
  | _, .inf => .inf
  | .neginf, _ => .neginf
  | _, .neginf => .neginf
  | .val a b, .val c d => .val (a * d + c * b) (b * d)

def F64.sub : F64 → F64 → F64
  | .nan, _ => .nan
  | _, .nan => .nan
  | .inf, .inf => .nan
  | .neginf, .neginf => .nan
  | .inf, _ => .inf
  | _, .inf => .neginf
  | .neginf, _ => .neginf
  | _, .neginf => .inf
  | .val a b, .val c d => .val (a * d - c * b) (b * d)

/-- The sign test `0 < num/den`, for a nonzero denominator. -/
def F64.fracPos (num den : Int) : Bool := 0 < num * den

def F64.mul : F64 → F64 → F64
  | .nan, _ => .nan
  | _, .nan => .nan
  | .inf, .inf => .inf
  | .neginf, .neginf => .inf
  | .inf, .neginf => .neginf
  | .neginf, .inf => .neginf
  | .inf, .val a b => if a = 0 then .nan else if F64.fracPos a b then .inf else .neginf
  | .val a b, .inf => if a = 0 then .nan else if F64.fracPos a b then .inf else .neginf
  | .neginf, .val a b => if a = 0 then .nan else if F64.fracPos a b then .neginf else .inf
  | .val a b, .neginf => if a = 0 then .nan else if F64.fracPos a b then .neginf else .inf
  | .val a b, .val c d => .val (a * c) (b * d)

def F64.div : F64 → F64 → F64
  | .nan, _ => .nan
  | _, .nan => .nan
  | .inf, .inf => .nan
  | .inf, .neginf => .nan
  | .neginf, .inf => .nan
  | .neginf, .neginf => .nan
  | .inf, .val _ _ => .inf
  | .neginf, .val _ _ => .neginf
  | .val _ _, .inf => .val 0 1
  | .val _ _, .neginf => .val 0 1
  | .val a b, .val c d =>
      if c = 0 then (if a = 0 then .nan else if F64.fracPos a b then .inf else .neginf)
      else .val (a * d) (b * c)

def F64.flt : F64 → F64 → Bool
  | .nan, _ => false
  | _, .nan => false
  | .inf, _ => false
  | _, .inf => true
  | .neginf, .neginf => false
  | .neginf, _ => true
  | .val _ _, .neginf => false
  | .val a b, .val c d => (a * d - c * b) * (b * d) < 0

def F64.fle (a b : F64) : Bool := F64.flt a b || F64.feq a b

def F64.neg : F64 → F64
  | .nan => .nan
  | .inf => .neginf
  | .neginf => .inf
  | .val a b => .val (-a) b

/-- Rust `Display` of an `f64` (idealised: integral doubles print without a
fractional part, as in Rust; no verified claim inspects non-integral
number formatting). -/
def F64.displayRepr : F64 → String
  | .nan => "NaN"
  | .inf => "inf"
  | .neginf => "-inf"
  | .val a b => if b = 1 then toString a else toString a ++ "/" ++ toString b

/-- Rust `Debug` of an `f64` (idealised formatting; no verified claim
inspects these substrings). -/
def F64.debugRepr : F64 → String
  | .nan => "NaN"
  | .inf => "inf"
  | .neginf => "-inf"
  | .val a b => if b = 1 then toString a ++ ".0" else toString a ++ "/" ++ toString b

/-- Runtime values (`lox_value.rs`, `LoxValue`).  The `loxFun` and
`foreinFun` payloads are arena indices standing for the shared `Rc`
allocations. -/
inductive LoxValue where
  | number : F64 → LoxValue
  | bool : Bool → LoxValue
  | string : String → LoxValue
  | loxFun : Nat → LoxValue
  | foreinFun : Nat → LoxValue
  | nil : LoxValue
deriving DecidableEq

/-- Rust `impl PartialEq for LoxValue` (`lox_value.rs` lines 20-37): values of
different kinds are unequal, numbers compare by IEEE-754 `==`, callables
compare by `Rc::ptr_eq` (arena-index equality here). -/
def LoxValue.beq : LoxValue → LoxValue → Bool
  | .number a, .number b => F64.feq a b
  | .number _, _ => false
  | .bool a, .bool b => a == b
  | .bool _, _ => false
  | .string a, .string b => a == b
  | .string _, _ => false
  | .loxFun a, .loxFun b => a == b
  | .loxFun _, _ => false
  | .foreinFun a, .foreinFun b => a == b
  | .foreinFun _, _ => false
  | .nil, .nil => true
  | .nil, _ => false

/-- The error enum (`error.rs`). -/
inductive Error where
  | syntaxError (line position : Nat) (message : String)
  | parsingError (line position : Nat) (message : String)
  | unknownBinaryOperator (line position : Nat) (message : String)
  | unknownUnaryOperator (line position : Nat) (message : String)
  | unknownLiteral (line position : Nat) (message : String)
  | internalRuntimeError (message : String)
  | runtimeError (line position : Nat) (message : String)
  | resolverError (line position : Nat) (message : String)
deriving DecidableEq

/-- Rust `Debug` of a `LoxValue`, used in the messages of
`InternalRuntimeError`s (idealised; no verified claim inspects these). -/
def LoxValue.debugRepr : LoxValue → String
  | .number n => "Number(" ++ n.debugRepr ++ ")"
  | .bool b => "Bool(" ++ toString b ++ ")"
  | .string s => "String(\"" ++ s ++ "\")"
  | .loxFun _ => "LoxFun(..)"
  | .foreinFun _ => "ForeinFun(..)"
  | .nil => "Nil"

/-- Rust `LoxValue::add` (`lox_value.rs`). -/
def LoxValue.add : LoxValue → LoxValue → Except Error LoxValue
  | .number l, .number r => .ok (.number (F64.add l r))
  | .string l, .string r => .ok (.string (l ++ r))
  | l, r => .error (.internalRuntimeError
      ("Cannot add: " ++ l.debugRepr ++ " and " ++ r.debugRepr))

/-- Rust `LoxValue::subtract`. -/
def LoxValue.subtract : LoxValue → LoxValue → Except Error LoxValue
  | .number l, .number r => .ok (.number (F64.sub l r))
  | l, r => .error (.internalRuntimeError
      ("Cannot subtract: " ++ l.debugRepr ++ " from " ++ r.debugRepr))

/-- Rust `LoxValue::multiply`. -/
def LoxValue.multiply : LoxValue → LoxValue → Except Error LoxValue
  | .number l, .number r => .ok (.number (F64.mul l r))
  | l, r => .error (.internalRuntimeError
      ("Cannot multiply: " ++ l.debugRepr ++ " by " ++ r.debugRepr))

/-- Rust `LoxValue::divide`. -/
def LoxValue.divide : LoxValue → LoxValue → Except Error LoxValue
  | .number l, .number r => .ok (.number (F64.div l r))
  | l, r => .error (.internalRuntimeError
      ("Cannot divide: " ++ l.debugRepr ++ " over " ++ r.debugRepr))

/-- Rust `LoxValue::equal` — total, never errors. -/
def LoxValue.equal (l r : LoxValue) : Except Error LoxValue :=
  .ok (.bool (LoxValue.beq l r))

/-- Rust `LoxValue::not_equal` — total, never errors. -/
def LoxValue.notEqual (l r : LoxValue) : Except Error LoxValue :=
  .ok (.bool (!LoxValue.beq l r))

/-- Rust `LoxValue::greater`. -/
def LoxValue.greater : LoxValue → LoxValue → Except Error LoxValue
  | .number l, .number r => .ok (.bool (F64.flt r l))
  | l, r => .error (.internalRuntimeError
      ("Cannot check if: " ++ l.debugRepr ++ " > " ++ r.debugRepr))

/-- Rust `LoxValue::greater_equal`. -/
def LoxValue.greaterEqual : LoxValue → LoxValue → Except Error LoxValue
  | .number l, .number r => .ok (.bool (F64.fle r l))
  | l, r => .error (.internalRuntimeError
      ("Cannot check if: " ++ l.debugRepr ++ " >= " ++ r.debugRepr))

/-- Rust `LoxValue::less`. -/
def LoxValue.less : LoxValue → LoxValue → Except Error LoxValue
  | .number l, .number r => .ok (.bool (F64.flt l r))
  | l, r => .error (.internalRuntimeError
      ("Cannot check if: " ++ l.debugRepr ++ " < " ++ r.debugRepr))

/-- Rust `LoxValue::less_equal`. -/
def LoxValue.lessEqual : LoxValue → LoxValue → Except Error LoxValue
  | .number l, .number r => .ok (.bool (F64.fle l r))
  | l, r => .error (.internalRuntimeError
      ("Cannot check if: " ++ l.debugRepr ++ " <= " ++ r.debugRepr))

/-- Rust `LoxValue::negative`. -/
def LoxValue.negative : LoxValue → Except Error LoxValue
  | .number v => .ok (.number (F64.neg v))
  | v => .error (.internalRuntimeError ("Cannot negate: " ++ v.debugRepr))

/-- Rust `LoxValue::is_truthy`: `false` and `Nil` are falsy, everything else is
truthy. -/
def LoxValue.isTruthy : LoxValue → Bool
  | .bool b => b
  | .nil => false
  | _ => true

/-- Rust `LoxValue::to_string` (Rust `Display`). -/
def LoxValue.toDisplayString : LoxValue → String
  | .number n => n.displayRepr
  | .bool b => toString b
  | .string s => s
  | .nil => "nil"
  | .loxFun _ => "LoxFun(..)"
  | .foreinFun _ => "ForeinFun(..)"

/-! ## AST (`expression.rs`, `statement.rs`) -/

/-- Rust `BinaryOperator`, with the operator token's location. -/
inductive BinaryOperator where
  | add (d : DebugInfo)
  | subtract (d : DebugInfo)
  | multiply (d : DebugInfo)
  | divide (d : DebugInfo)
  | equal (d : DebugInfo)
  | notEqual (d : DebugInfo)
  | less (d : DebugInfo)
  | lessEqual (d : DebugInfo)
  | greater (d : DebugInfo)
  | greaterEqual (d : DebugInfo)
deriving DecidableEq

/-- Rust `UnaryOperator`. -/
inductive UnaryOperator where
  | not (d : DebugInfo)
  | negative (d : DebugInfo)
deriving DecidableEq

/-- Rust `LogicalOperator`. -/
inductive LogicalOperator where
  | and (d : DebugInfo)
  | or (d : DebugInfo)
deriving DecidableEq

/-- Rust `LiteralValue`. -/
inductive LiteralValue where
  | stringL (s : String) (d : DebugInfo)
  | numberL (n : F64) (d : DebugInfo)
  | trueL (d : DebugInfo)
  | falseL (d : DebugInfo)
  | nilL (d : DebugInfo)
deriving DecidableEq

/-- Rust `Expression`.  `call` keeps the source field order: callee (spelt
`calle` in the source), the call's debug info, the argument list. -/
inductive Expression where
  | binary (left : Expression) (operator : BinaryOperator) (right : Expression)
  | grouping (e : Expression)
  | literal (value : LiteralValue)
  | unary (operator : UnaryOperator) (right : Expression)
  | identifier (i : Identifier)
  | assignment (target : Identifier) (value : Expression)
  | logical (left : Expression) (operator : LogicalOperator) (right : Expression)
  | call (calle : Expression) (debugInfo : DebugInfo) (args : List Expression)

mutual
/-- Rust `Statement`. -/
inductive Statement where
  | nop
  | expression (e : Expression)
  | print (e : Expression)
  | varDecl (name : Identifier) (initializer : Option Expression)
  | block (b : LBlock)
  | ifS (condition : Expression) (thenBranch : LBlock) (elseBranch : Option LBlock)
  | whileS (condition : Expression) (body : LBlock)
  | funDecl (name : Identifier) (args : List Identifier) (body : LBlock)
  | ret (value : Option Expression)

/-- Rust `Block` (named `LBlock` to avoid clashing with other developments). -/
inductive LBlock where
  | mk (statements : List Statement)
end

/-- The statement list of a block. -/
def LBlock.statements : LBlock → List Statement
  | .mk s => s

/-! ## Resolver (`resolver.rs`) -/

/-- Rust `ScopeDepth`: wraps the `NonZeroUsize` stored in the access table.
`raw` is the stored (nonzero) value. -/
structure ScopeDepth where
  raw : Nat
deriving DecidableEq

/-- Rust `ScopeDepth::get`: the number of parent links to walk at runtime. -/
def ScopeDepth.get (d : ScopeDepth) : Nat := d.raw - 1

/-- Rust `ScopeDepth::from(depth, number_of_parent_scopes)`:
`NonZeroUsize::new(if depth == number_of_parent_scopes { 0 } else { depth + 1 })`. -/
def ScopeDepth.fromDepth (depth numberOfParentScopes : Nat) : Option ScopeDepth :=
  if depth = numberOfParentScopes then none else some ⟨depth + 1⟩

/-- Rust `AccessTable`: `HashMap<IdentifierId, ScopeDepth>`, as an association
list keyed by identifier id. -/
structure AccessTable where
  entries : List (Nat × ScopeDepth)
deriving DecidableEq

/-- Rust `AccessTable::empty`. -/
def AccessTable.empty : AccessTable := ⟨[]⟩

/-- Rust `AccessTable::get`: `none` means the identifier refers to the global
scope. -/
def AccessTable.get (t : AccessTable) (id : Nat) : Option ScopeDepth :=
  (t.entries.find? (fun p => p.1 == id)).map (fun p => p.2)

/-- Rust `AccessTable::put`: errors when the same identifier-use-id is inserted
twice (the Rust code inserts first and then reports the collision; the
caller treats the error as fatal, so the difference is unobservable). -/
def AccessTable.put (t : AccessTable) (i : Nat) (depth : Option ScopeDepth) :
    Except Unit AccessTable :=
  match depth with
  | none => .ok t
  | some d =>
    match t.entries.find? (fun p => p.1 == i) with
    | some _ => .error ()
    | none => .ok ⟨(i, d) :: t.entries⟩

/-- Rust `AccessTable::add_all`. -/
def AccessTable.addAll (t other : AccessTable) : Except Unit AccessTable :=
  other.entries.foldlM (fun acc p => acc.put p.1 (some p.2)) t

/-- Association-list lookup, standing for `HashMap::get`. -/
def alGet {α : Type} : List (String × α) → String → Option α
  | [], _ => none
  | (k, v) :: rest, name => if k = name then some v else alGet rest name

/-- Association-list insert with replacement, standing for
`HashMap::insert`. -/
def alInsert {α : Type} : List (String × α) → String → α → List (String × α)
  | [], name, v => [(name, v)]
  | (k, w) :: rest, name, v =>
      if k = name then (name, v) :: rest else (k, w) :: alInsert rest name v

/-- One resolver scope map: name → defined flag (`false` = declared but not
yet initialized). -/
def ScopeMap := List (String × Bool)

/-- The `Resolver` state.  `scopes` keeps the innermost scope first (the
Rust `Vec` keeps it last; `last()` here is the list head, and
`iter().rev().enumerate()` is plain enumeration of this list). -/
structure Resolver where
  accessTable : AccessTable
  scopes : List ScopeMap
  line : Nat
  position : Nat

/-- Rust `Resolver::error`. -/
def Resolver.mkError (r : Resolver) (message : String) : Error :=
  .resolverError r.line r.position message

/-- Rust `Resolver::set_location`. -/
def Resolver.setLocation (r : Resolver) (d : DebugInfo) : Resolver :=
  { r with line := d.line, position := d.position }

/-- Rust `Resolver::declare`: mark the name "declared, not yet initialized" in
the innermost scope; a no-op at global scope (empty scope stack). -/
def Resolver.declare (r : Resolver) (name : String) : Except Error Resolver :=
  match r.scopes with
  | [] => .ok r
  | s :: rest => .ok { r with scopes := alInsert s name false :: rest }

/-- Rust `Resolver::define`: mark the name initialized in the innermost scope; a
no-op at global scope.  The Rust code `get_mut(..).expect(..)` requires the
name to be declared first, which every caller guarantees; insertion with
replacement coincides with that update. -/
def Resolver.define (r : Resolver) (name : String) : Except Error Resolver :=
  match r.scopes with
  | [] => .ok r
  | s :: rest => .ok { r with scopes := alInsert s name true :: rest }

/-- The scan in `Resolver::resolve_local_identifier`: index of the first
scope (innermost first) containing the name. -/
def findScopeDepth (name : String) : Nat → List ScopeMap → Option Nat
  | _, [] => none
  | i, s :: rest =>
      if (alGet s name).isSome then some i else findScopeDepth name (i + 1) rest

/-- Rust `Resolver::resolve_local_identifier`. -/
def Resolver.resolveLocalIdentifier (r : Resolver) (id : Nat) (name : String) :
    Except Error Resolver :=
  match findScopeDepth name 0 r.scopes with
  | none => .ok r
  | some i =>
    match r.accessTable.put id (ScopeDepth.fromDepth i r.scopes.length) with
    | .ok t => .ok { r with accessTable := t }
    | .error _ => .error (r.mkError "Tried to resolve the same identifier twice.")

/-- Rust `Resolver::visit_identifier`: reading a local that is declared but not
yet initialized in the innermost scope is a static error. -/
def Resolver.visitIdentifier (r : Resolver) (ident : Identifier) :
    Except Error Resolver :=
  let r := r.setLocation ident.debugInfo
  if (match r.scopes with
      | [] => false
      | s :: _ => alGet s ident.name == some false) then
    .error (r.mkError "Can't read local variable in its initializer.")
  else
    r.resolveLocalIdentifier ident.id ident.name

/-- The parameter loop of `resolve_function`: set the location to the
parameter's, then declare and define it. -/
def Resolver.declareArgs (r : Resolver) (args : List Identifier) :
    Except Error Resolver :=
  match args with
  | [] => .ok r
  | a :: rest => do
      let r := r.setLocation a.debugInfo
      let r ← r.declare a.name
      let r ← r.define a.name
      Resolver.declareArgs r rest

/-! The resolver's walk is mutually recursive over the AST.  Like the
evaluator below, it is written as a fuel-indexed bundle iterated with
`Nat.rec` (which reduces efficiently inside the kernel, unlike the
`brecOn` scheme of ordinary structural recursion).  The fuel only has to
exceed the recursion depth, which is bounded by the AST size; `resolve`
passes a fuel that vastly exceeds the depth of any program considered
here, so the out-of-fuel branch (a distinguished `ResolverError`) is
never reached. -/

/-- The bundle of resolver functions, one field per mutually recursive
method of `resolver.rs`. -/
structure ResolverFuns where
  visitStatementR : Resolver → Statement → Except Error Resolver
  resolveStmtsR : Resolver → List Statement → Except Error Resolver
  visitBlockR : Resolver → LBlock → Except Error Resolver
  resolveFunctionR : Resolver → List Identifier → LBlock → Except Error Resolver
  visitExpressionR : Resolver → Expression → Except Error Resolver
  visitExprListR : Resolver → List Expression → Except Error Resolver

/-- The out-of-fuel bundle (unreachable for the programs considered). -/
def resolverNone : ResolverFuns where
  visitStatementR := fun _ _ => .error (.resolverError 0 0 "resolver fuel exhausted")
  resolveStmtsR := fun _ _ => .error (.resolverError 0 0 "resolver fuel exhausted")
  visitBlockR := fun _ _ => .error (.resolverError 0 0 "resolver fuel exhausted")
  resolveFunctionR := fun _ _ _ => .error (.resolverError 0 0 "resolver fuel exhausted")
  visitExpressionR := fun _ _ => .error (.resolverError 0 0 "resolver fuel exhausted")
  visitExprListR := fun _ _ => .error (.resolverError 0 0 "resolver fuel exhausted")

/-- One fuel layer of the resolver; every recursive call goes to `prev`.
Field by field this is the direct transcription of the corresponding
method of `resolver.rs`:
* `visitStatementR` is `Resolver::visit_statement`;
* `resolveStmtsR` is `Resolver::resolve` (the statement-list walk);
* `visitBlockR` is `Resolver::visit_block` (push a fresh scope, resolve
  the statements, pop);
* `resolveFunctionR` is `Resolver::resolve_function`: push ONE scope,
  declare+define every parameter in it, then resolve the body's
  statements in that same scope (there is no separate nested scope for
  the body), pop;
* `visitExpressionR` is `Resolver::visit_expression`;
* `visitExprListR` is the argument loop of `visit_expression` on calls. -/
def mkResolverStep (prev : ResolverFuns) : ResolverFuns where
  visitStatementR := fun r s =>
    match s with
    | .nop => .ok r
    | .expression e => prev.visitExpressionR r e
    | .print e => prev.visitExpressionR r e
    | .block b => prev.visitBlockR r b
    | .ret (some value) => prev.visitExpressionR r value
    | .ret none => .ok r
    | .varDecl ident (some initializer) => do
        let r ← r.declare ident.name
        let r ← prev.visitExpressionR r initializer
        let r ← r.define ident.name
        .ok r
    | .varDecl ident none => do
        let r ← r.declare ident.name
        let r ← r.define ident.name
        .ok r
    | .ifS condition thenBranch elseBranch => do
        let r ← prev.visitExpressionR r condition
        let r ← prev.visitBlockR r thenBranch
        match elseBranch with
        | some b => prev.visitBlockR r b
        | none => .ok r
    | .whileS condition body => do
        let r ← prev.visitExpressionR r condition
        prev.visitBlockR r body
    | .funDecl ident args body => do
        let r ← r.declare ident.name
        let r ← r.define ident.name
        prev.resolveFunctionR r args body
  resolveStmtsR := fun r stmts =>
    match stmts with
    | [] => .ok r
    | s :: rest => do
        let r ← prev.visitStatementR r s
        prev.resolveStmtsR r rest
  visitBlockR := fun r b =>
    match b with
    | .mk stmts => do
        let r ← prev.resolveStmtsR { r with scopes := [] :: r.scopes } stmts
        .ok { r with scopes := r.scopes.tail }
  resolveFunctionR := fun r args b =>
    match b with
    | .mk stmts => do
        let r ← Resolver.declareArgs { r with scopes := [] :: r.scopes } args
        let r ← prev.resolveStmtsR r stmts
        .ok { r with scopes := r.scopes.tail }
  visitExpressionR := fun r e =>
    match e with
    | .binary left _ right => do
        let r ← prev.visitExpressionR r left
        prev.visitExpressionR r right
    | .grouping g => prev.visitExpressionR r g
    | .literal _ => .ok r
    | .unary _ right => prev.visitExpressionR r right
    | .identifier ident => r.visitIdentifier ident
    | .assignment target value => do
        let r ← prev.visitExpressionR r value
        let r := r.setLocation target.debugInfo
        r.resolveLocalIdentifier target.id target.name
    | .logical left _ right => do
        let r ← prev.visitExpressionR r left
        prev.visitExpressionR r right
    | .call calle _ args => do
        let r ← prev.visitExpressionR r calle
        prev.visitExprListR r args
  visitExprListR := fun r es =>
    match es with
    | [] => .ok r
    | e :: rest => do
        let r ← prev.visitExpressionR r e
        prev.visitExprListR r rest

/-- The resolver bundle at a given fuel. -/
def resolverAt (fuel : Nat) : ResolverFuns :=
  Nat.rec resolverNone (fun _ ih => mkResolverStep ih) fuel

/-- The fuel used by `resolve`: far beyond the recursion depth of any
program considered here (the depth is bounded by the AST size). -/
def resolverFuel : Nat := 1000000

/-- Rust `Resolver::visit_statement`. -/
def Resolver.visitStatement (r : Resolver) (s : Statement) : Except Error Resolver :=
  (resolverAt resolverFuel).visitStatementR r s

/-- Rust `Resolver::resolve` (the statement-list walk). -/
def Resolver.resolveStmts (r : Resolver) (stmts : List Statement) :
    Except Error Resolver :=
  (resolverAt resolverFuel).resolveStmtsR r stmts

/-- Rust `Resolver::visit_block`. -/
def Resolver.visitBlock (r : Resolver) (b : LBlock) : Except Error Resolver :=
  (resolverAt resolverFuel).visitBlockR r b

/-- Rust `Resolver::resolve_function`: push ONE scope, declare+define
every parameter in it, then resolve the body's statements in that same
scope (there is no separate nested scope for the body), pop. -/
def Resolver.resolveFunction (r : Resolver) (args : List Identifier) (b : LBlock) :
    Except Error Resolver :=
  (resolverAt resolverFuel).resolveFunctionR r args b

/-- Rust `Resolver::visit_expression`. -/
def Resolver.visitExpression (r : Resolver) (e : Expression) : Except Error Resolver :=
  (resolverAt resolverFuel).visitExpressionR r e

/-- Top-level `resolver::resolve`. -/
def resolve (statements : List Statement) : Except Error AccessTable := do
  let r : Resolver :=
    { line := 0, position := 0, accessTable := AccessTable.empty, scopes := [] }
  let r ← Resolver.resolveStmts r statements
  .ok r.accessTable

/-! ## Environment (`environment.rs`)

`Rc<RefCell<Frame>>` is modelled by an arena: `frames` lists every frame
ever allocated, and a `FrameRef` is the index of its frame.  Frames are
never deallocated in the model (reference counting only shortens lifetimes,
it never changes observable behaviour). -/

/-- A stored variable (`environment.rs`, `Variable`). -/
structure LoxVariable where
  value : LoxValue
  definedAt : DebugInfo
deriving DecidableEq

/-- One scope frame (`environment.rs`, `Frame`): name → variable map plus
the optional parent frame reference. -/
structure Frame where
  values : List (String × LoxVariable)
  parent : Option Nat
deriving DecidableEq

def Frame.empty : Frame := ⟨[], none⟩

/-- The `Environment`: the frame arena plus the closure return stack, the
access table, and the head and global frame references. -/
structure Environment where
  frames : List Frame
  closureStack : List Nat
  accessTable : AccessTable
  head : Nat
  global : Nat
deriving DecidableEq

/-- Dereference a `FrameRef` (always valid for states the interpreter
builds; the default is never hit there). -/
def Environment.frameAt (env : Environment) (i : Nat) : Frame :=
  (env.frames[i]?).getD Frame.empty

/-- Rust `Environment::new`: a single global frame, which is also the head. -/
def Environment.new : Environment :=
  { frames := [Frame.empty], closureStack := [], accessTable := AccessTable.empty,
    head := 0, global := 0 }

/-- Rust `Environment::get_current_frame`. -/
def Environment.getCurrentFrame (env : Environment) : Nat := env.head

/-- Rust `Environment::extend_access_table`. -/
def Environment.extendAccessTable (env : Environment) (t : AccessTable) :
    Except Unit Environment :=
  match env.accessTable.addAll t with
  | .ok t' => .ok { env with accessTable := t' }
  | .error _ => .error ()

/-- Rust `Environment::push`: allocate a frame whose parent is the current head
and make it the head. -/
def Environment.push (env : Environment) : Environment :=
  { env with frames := env.frames ++ [⟨[], some env.head⟩],
             head := env.frames.length }

/-- Rust `Environment::push_closure`: save the current head on the closure
stack, then make a fresh frame whose parent is the captured frame the new
head. -/
def Environment.pushClosure (env : Environment) (frame : Nat) : Environment :=
  { env with frames := env.frames ++ [⟨[], some frame⟩],
             head := env.frames.length,
             closureStack := env.head :: env.closureStack }

/-- Rust `Environment::pop`: the head's parent becomes the head.  The Rust code
panics when the head is the global frame (no parent); that path is
unreachable for the programs interpreted here and is modelled as a no-op. -/
def Environment.pop (env : Environment) : Environment :=
  { env with head := ((env.frameAt env.head).parent).getD env.head }

/-- Rust `Environment::pop_closure`: restore the head from the closure stack.
The Rust code panics on an empty stack; modelled as a no-op (unreachable
for the programs interpreted here). -/
def Environment.popClosure (env : Environment) : Environment :=
  match env.closureStack with
  | [] => env
  | h :: rest => { env with head := h, closureStack := rest }

/-- Rust `Environment::get_nth_scope`: walk `n` parent links from the head.
Rust panics when walking past the global frame; modelled by stopping
(unreachable for correctly resolved programs). -/
def Environment.nthScopeFrom (env : Environment) (start : Nat) : Nat → Nat
  | 0 => start
  | n + 1 => env.nthScopeFrom (((env.frameAt start).parent).getD start) n

def Environment.getNthScope (env : Environment) (n : Nat) : Nat :=
  env.nthScopeFrom env.head n

/-- Rust `Environment::define`: insert into the head frame's map; a user-facing
runtime error if the name already exists in that exact frame.  On the error
path nothing is mutated. -/
def Environment.define (env : Environment) (ident : Identifier) (value : LoxValue) :
    Except Error Unit × Environment :=
  let frame := env.frameAt env.head
  match alGet frame.values ident.name with
  | some existing =>
      (.error (.runtimeError ident.debugInfo.line ident.debugInfo.position
        ("Variable " ++ ident.name ++ " already defined at "
          ++ toString existing.definedAt.line ++ ":"
          ++ toString existing.definedAt.position ++ "!")), env)
  | none =>
      let frame' :=
        { frame with values := alInsert frame.values ident.name ⟨value, ident.debugInfo⟩ }
      (.ok (), { env with frames := env.frames.set env.head frame' })

/-- Rust `Environment::get`: depth-addressed lookup via the access table, or the
global frame when the identifier id is absent from the table. -/
def Environment.get (env : Environment) (name : String) (id : Nat) : Option LoxValue :=
  match env.accessTable.get id with
  | some depth =>
      (alGet (env.frameAt (env.getNthScope depth.get)).values name).map (fun v => v.value)
  | none =>
      (alGet (env.frameAt env.global).values name).map (fun v => v.value)

/-- Rust `Environment::get_global`. -/
def Environment.getGlobal (env : Environment) (name : String) : Option LoxValue :=
  (alGet (env.frameAt env.global).values name).map (fun v => v.value)

/-- Rust `Environment::assign`: same addressing as `get`, mutating the existing
slot in place; `none` when no such slot exists. -/
def Environment.assign (env : Environment) (target : String) (id : Nat)
    (value : LoxValue) : Option LoxValue × Environment :=
  let idx := match env.accessTable.get id with
    | some depth => env.getNthScope depth.get
    | none => env.global
  let frame := env.frameAt idx
  match alGet frame.values target with
  | none => (none, env)
  | some v =>
      let frame' :=
        { frame with values := alInsert frame.values target ⟨value, v.definedAt⟩ }
      (some value, { env with frames := env.frames.set idx frame' })

/-! ## Interpreter (`interpreter.rs`, plus the `LoxFun`/`ForeinFun` data
used by it)

`interpreter.rs` constructs `LoxFun { name, captured_scope, args, body }`
and drives calls through `visit_call` directly (the older trait-based
`LoxCallable::call` in `lox_function.rs` is not on this path).  `Rc<LoxFun>`
and `Rc<ForeinFun>` allocations are modelled by arenas in the interpreter
state; a `LoxValue.loxFun i` / `.foreinFun i` holds the arena index, so
`Rc::ptr_eq` is index equality. -/

/-- The closed world of native (`ForeinFun`) implementations registered by
this program: only `toString` (`Interpreter::init`). -/
inductive ForeinImpl where
  | toStringNative
deriving DecidableEq

/-- Rust `ForeinFun` data: name, arity, and the host function pointer. -/
structure ForeinFun where
  name : String
  arity : Nat
  impl : ForeinImpl
deriving DecidableEq

/-- Rust `LoxFun` data as built by `Interpreter::define_function`. -/
structure LoxFun where
  name : Identifier
  capturedScope : Nat
  args : List Identifier
  body : LBlock

/-- A `LoxFun` with no parameters and an empty body (the arena default;
never hit by the interpreted programs). -/
def LoxFun.default : LoxFun :=
  ⟨⟨"", ⟨0, 0, ""⟩, 0⟩, 0, [], .mk []⟩

def ForeinFun.default : ForeinFun := ⟨"", 0, .toStringNative⟩

/-- Rust `LoxResult` (`interpreter.rs`): `ret` is `LoxResult::Return`, `normal`
is `LoxResult::None`. -/
inductive LoxResult where
  | ret (v : LoxValue)
  | normal
deriving DecidableEq

/-- The `Interpreter` state: tracked source location, environment, the two
`Rc` arenas, and collected `print` output. -/
structure InterpState where
  line : Nat
  position : Nat
  env : Environment
  loxFuns : List LoxFun
  foreinFuns : List ForeinFun
  output : List String

def InterpState.getLoxFun (σ : InterpState) (i : Nat) : LoxFun :=
  (σ.loxFuns[i]?).getD LoxFun.default

def InterpState.getForeinFun (σ : InterpState) (i : Nat) : ForeinFun :=
  (σ.foreinFuns[i]?).getD ForeinFun.default

/-- Rust `Interpreter::set_debug`. -/
def InterpState.setDebug (σ : InterpState) (d : DebugInfo) : InterpState :=
  { σ with line := d.line, position := d.position }

/-- Rust `Interpreter::error`: a `RuntimeError` at the tracked location. -/
def InterpState.stateError (σ : InterpState) (message : String) : Error :=
  .runtimeError σ.line σ.position message

def InterpState.withEnv (σ : InterpState) (f : Environment → Environment) :
    InterpState :=
  { σ with env := f σ.env }

/-- Rust `self.environment.define(..)` from the interpreter. -/
def InterpState.envDefine (σ : InterpState) (ident : Identifier) (v : LoxValue) :
    Except Error Unit × InterpState :=
  match σ.env.define ident v with
  | (r, env') => (r, { σ with env := env' })

/-- The identifier under which `Interpreter::init` registers the native
`toString`. -/
def nativeToStringIdentifier : Identifier :=
  ⟨"toString", ⟨0, 0, "<native identifier>"⟩, 0⟩

/-- Rust `Interpreter::new` followed by `init`: fresh environment with the
native `toString` registered in the global frame. -/
def InterpState.initial : InterpState :=
  let σ : InterpState :=
    { line := 0, position := 0, env := Environment.new,
      loxFuns := [], foreinFuns := [⟨"toString", 1, .toStringNative⟩],
      output := [] }
  (σ.envDefine nativeToStringIdentifier (.foreinFun 0)).2

/-- Run a native implementation (`(fun.fun)(self, args)`);
`to_string` reads its first argument (safe: arity was checked). -/
def runForeinImpl (impl : ForeinImpl) (args : List LoxValue) (σ : InterpState) :
    Except Error LoxValue × InterpState :=
  match impl with
  | .toStringNative =>
      (.ok (.string (LoxValue.toDisplayString (args.getD 0 .nil))), σ)

/-- Rust `Interpreter::visit_literal`. -/
def interpVisitLiteral : LiteralValue → LoxValue
  | .stringL s _ => .string s
  | .numberL n _ => .number n
  | .trueL _ => .bool true
  | .falseL _ => .bool false
  | .nilL _ => .nil

/-- Rust `Interpreter::visit_identifier` (no state mutation). -/
def interpVisitIdentifier (σ : InterpState) (ident : Identifier) :
    Except Error LoxValue :=
  match σ.env.get ident.name ident.id with
  | some v => .ok v
  | none => .error (.runtimeError ident.debugInfo.line ident.debugInfo.position
      ("Variable " ++ ident.name ++ " not defined!"))

/-- Rust `Interpreter::define_function`: capture the current frame, allocate the
`Rc<LoxFun>` (arena append), and define the function's name.  On a define
error the Rust `Rc` is dropped; the arena keeps the entry, which is
unobservable. -/
def interpDefineFunction (σ : InterpState) (name : Identifier)
    (args : List Identifier) (body : LBlock) : Except Error Unit × InterpState :=
  let frame := σ.env.getCurrentFrame
  let lf : LoxFun := ⟨name, frame, args, body⟩
  let σ := { σ with loxFuns := σ.loxFuns ++ [lf] }
  σ.envDefine name (.loxFun (σ.loxFuns.length - 1))

/-- The parameter-binding loop of `visit_call`:
`for (identifier, value) in zip(fun.args, arg_values) { define(..)? }`.
An error is returned with the state at that moment (the Rust `?` skips the
later `pop_closure`). -/
def defineParams : List Identifier → List LoxValue → InterpState →
    Except Error Unit × InterpState
  | [], _, σ => (.ok (), σ)
  | _ :: _, [], σ => (.ok (), σ)
  | i :: is, v :: vs, σ =>
    match σ.envDefine i v with
    | (.error e, σ') => (.error e, σ')
    | (.ok (), σ') => defineParams is vs σ'

/-- The mapping of a function body's terminal signal to the call's value
in `visit_call`: `Return(v)` becomes `v`, falling off the end becomes
`Nil`, an error propagates. -/
def callResultOf : Except Error LoxResult → Except Error LoxValue
  | .ok (.ret v) => .ok v
  | .ok .normal => .ok .nil
  | .error e => .error e

/-! The evaluator functions of `interpreter.rs` are mutually recursive
through function calls, so they take a fuel parameter; all of them live in
one bundle `StepFuns`, with `mkStep` building the fuel `n+1` bundle from
the fuel `n` bundle and `interpAt` iterating it with `Nat.rec` (this
encoding reduces efficiently inside the kernel, unlike `brecOn`).  Each
field of `mkStep` is the direct transcription of one Rust method; the
`interp…` wrappers below give them their stand-alone names. -/

/-- The bundle of fueled evaluator functions, one field per mutually
recursive method of `interpreter.rs`. -/
structure StepFuns where
  runF : List Statement → InterpState → Option (Except Error LoxResult × InterpState)
  visitStatementF : Statement → InterpState → Option (Except Error LoxResult × InterpState)
  whileF : Expression → LBlock → InterpState → Option (Except Error LoxResult × InterpState)
  runBlockF : LBlock → InterpState → Option (Except Error LoxResult × InterpState)
  visitExpressionInnerF : Expression → InterpState → Option (Except Error LoxValue × InterpState)
  visitExpressionF : Expression → InterpState → Option (Except Error LoxValue × InterpState)
  visitBinaryF : Expression → BinaryOperator → Expression → InterpState →
    Option (Except Error LoxValue × InterpState)
  visitUnaryF : UnaryOperator → Expression → InterpState →
    Option (Except Error LoxValue × InterpState)
  visitAssignmentF : Identifier → Expression → InterpState →
    Option (Except Error LoxValue × InterpState)
  visitLogicalF : Expression → LogicalOperator → Expression → InterpState →
    Option (Except Error LoxValue × InterpState)
  evalArgsF : List Expression → InterpState →
    Option (Except Error (List LoxValue) × InterpState)
  visitCallF : Expression → DebugInfo → List Expression → InterpState →
    Option (Except Error LoxValue × InterpState)

/-- Out of fuel: every evaluator function answers `none`. -/
def stepNone : StepFuns where
  runF := fun _ _ => none
  visitStatementF := fun _ _ => none
  whileF := fun _ _ _ => none
  runBlockF := fun _ _ => none
  visitExpressionInnerF := fun _ _ => none
  visitExpressionF := fun _ _ => none
  visitBinaryF := fun _ _ _ _ => none
  visitUnaryF := fun _ _ _ => none
  visitAssignmentF := fun _ _ _ => none
  visitLogicalF := fun _ _ _ _ => none
  evalArgsF := fun _ _ => none
  visitCallF := fun _ _ _ _ => none

/-- One fuel layer of the evaluator: every recursive call goes to `prev`.
Field by field this is the direct transcription of the corresponding Rust
method (see the `interp…` wrappers for the documentation). -/
def mkStep (prev : StepFuns) : StepFuns where
  runF := fun stmts σ =>
    match stmts with
    | [] => some (.ok .normal, σ)
    | s :: rest =>
      match prev.visitStatementF s σ with
      | none => none
      | some (.error e, σ') => some (.error e, σ')
      | some (.ok (.ret v), σ') => some (.ok (.ret v), σ')
      | some (.ok .normal, σ') => prev.runF rest σ'
  visitStatementF := fun s σ =>
    match s with
    | .nop => some (.ok .normal, σ)
    | .expression e =>
      match prev.visitExpressionF e σ with
      | none => none
      | some (.error er, σ') => some (.error er, σ')
      | some (.ok _, σ') => some (.ok .normal, σ')
    | .print e =>
      match prev.visitExpressionF e σ with
      | none => none
      | some (.error er, σ') => some (.error er, σ')
      | some (.ok v, σ') =>
          some (.ok .normal, { σ' with output := σ'.output ++ [v.toDisplayString] })
    | .varDecl name (some initializer) =>
      match prev.visitExpressionF initializer σ with
      | none => none
      | some (.error er, σ') => some (.error er, σ')
      | some (.ok v, σ') =>
        match σ'.envDefine name v with
        | (.error er, σ'') => some (.error er, σ'')
        | (.ok (), σ'') => some (.ok .normal, σ'')
    | .varDecl name none =>
      match σ.envDefine name .nil with
      | (.error er, σ') => some (.error er, σ')
      | (.ok (), σ') => some (.ok .normal, σ')
    | .block b => prev.runBlockF b σ
    | .ifS condition thenBranch elseBranch =>
      match prev.visitExpressionF condition σ with
      | none => none
      | some (.error er, σ') => some (.error er, σ')
      | some (.ok c, σ') =>
        if c.isTruthy then
          prev.runBlockF thenBranch σ'
        else
          match elseBranch with
          | some b => prev.runBlockF b σ'
          | none => some (.ok .normal, σ')
    | .whileS condition body => prev.whileF condition body σ
    | .funDecl name args body =>
      match interpDefineFunction σ name args body with
      | (.error er, σ') => some (.error er, σ')
      | (.ok (), σ') => some (.ok .normal, σ')
    | .ret (some value) =>
      match prev.visitExpressionF value σ with
      | none => none
      | some (.error er, σ') => some (.error er, σ')
      | some (.ok v, σ') => some (.ok (.ret v), σ')
    | .ret none => some (.ok (.ret .nil), σ)
  whileF := fun condition body σ =>
    match prev.visitExpressionF condition σ with
    | none => none
    | some (.error er, σ') => some (.error er, σ')
    | some (.ok c, σ') =>
      if c.isTruthy then
        match prev.runBlockF body σ' with
        | none => none
        | some (.error er, σ'') => some (.error er, σ'')
        | some (.ok (.ret v), σ'') => some (.ok (.ret v), σ'')
        | some (.ok .normal, σ'') => prev.whileF condition body σ''
      else some (.ok .normal, σ')
  runBlockF := fun b σ =>
    match b with
    | .mk stmts =>
      match prev.runF stmts (σ.withEnv Environment.push) with
      | none => none
      | some (r, σ') => some (r, σ'.withEnv Environment.pop)
  visitExpressionInnerF := fun e σ =>
    match e with
    | .binary left op right => prev.visitBinaryF left op right σ
    | .grouping g => prev.visitExpressionF g σ
    | .literal lit => some (.ok (interpVisitLiteral lit), σ)
    | .unary op right => prev.visitUnaryF op right σ
    | .identifier ident => some (interpVisitIdentifier σ ident, σ)
    | .assignment target value => prev.visitAssignmentF target value σ
    | .logical left op right => prev.visitLogicalF left op right σ
    | .call calle dbg args => prev.visitCallF calle dbg args σ
  visitExpressionF := fun e σ =>
    match
      (match e with
      | .binary left op right => prev.visitBinaryF left op right σ
      | .grouping g => prev.visitExpressionF g σ
      | .literal lit => some (.ok (interpVisitLiteral lit), σ)
      | .unary op right => prev.visitUnaryF op right σ
      | .identifier ident => some (interpVisitIdentifier σ ident, σ)
      | .assignment target value => prev.visitAssignmentF target value σ
      | .logical left op right => prev.visitLogicalF left op right σ
      | .call calle dbg args => prev.visitCallF calle dbg args σ) with
    | none => none
    | some (.error (.internalRuntimeError message), σ') =>
        some (.error (.runtimeError σ'.line σ'.position message), σ')
    | some (r, σ') => some (r, σ')
  visitBinaryF := fun left op right σ =>
    match prev.visitExpressionF left σ with
    | none => none
    | some (.error e, σ1) => some (.error e, σ1)
    | some (.ok lv, σ1) =>
      match prev.visitExpressionF right σ1 with
      | none => none
      | some (.error e, σ2) => some (.error e, σ2)
      | some (.ok rv, σ2) =>
        match op with
        | .add d => some (LoxValue.add lv rv, σ2.setDebug d)
        | .subtract d => some (LoxValue.subtract lv rv, σ2.setDebug d)
        | .multiply d => some (LoxValue.multiply lv rv, σ2.setDebug d)
        | .divide d => some (LoxValue.divide lv rv, σ2.setDebug d)
        | .equal d => some (LoxValue.equal lv rv, σ2.setDebug d)
        | .notEqual d => some (LoxValue.notEqual lv rv, σ2.setDebug d)
        | .less d => some (LoxValue.less lv rv, σ2.setDebug d)
        | .lessEqual d => some (LoxValue.lessEqual lv rv, σ2.setDebug d)
        | .greater d => some (LoxValue.greater lv rv, σ2.setDebug d)
        | .greaterEqual d => some (LoxValue.greaterEqual lv rv, σ2.setDebug d)
  visitUnaryF := fun op right σ =>
    match prev.visitExpressionF right σ with
    | none => none
    | some (.error e, σ') => some (.error e, σ')
    | some (.ok v, σ') =>
      match op with
      | .negative d => some (LoxValue.negative v, σ'.setDebug d)
      | .not d => some (.ok (.bool (!v.isTruthy)), σ'.setDebug d)
  visitAssignmentF := fun target value σ =>
    match prev.visitExpressionF value σ with
    | none => none
    | some (.error e, σ') => some (.error e, σ')
    | some (.ok v, σ') =>
      match σ'.env.assign target.name target.id v with
      | (some v', env') => some (.ok v', { σ' with env := env' })
      | (none, env') =>
          some (.error (.runtimeError target.debugInfo.line target.debugInfo.position
            ("Variable " ++ target.name ++ " already declared at "
              ++ toString target.debugInfo.line ++ ":"
              ++ toString target.debugInfo.position ++ "!")),
            { σ' with env := env' })
  visitLogicalF := fun left op right σ =>
    match prev.visitExpressionF left σ with
    | none => none
    | some (.error e, σ') => some (.error e, σ')
    | some (.ok lv, σ') =>
      let σ' := match op with
        | .or d => σ'.setDebug d
        | .and d => σ'.setDebug d
      let shortCircuit := match op with
        | .or _ => lv.isTruthy
        | .and _ => !lv.isTruthy
      if shortCircuit then some (.ok lv, σ')
      else
        match prev.visitExpressionF right σ' with
        | none => none
        | some (.error e, σ'') => some (.error e, σ'')
        | some (.ok rv, σ'') => some (.ok rv, σ'')
  evalArgsF := fun args σ =>
    match args with
    | [] => some (.ok [], σ)
    | a :: rest =>
      match prev.visitExpressionF a σ with
      | none => none
      | some (.error e, σ') => some (.error e, σ')
      | some (.ok v, σ') =>
        match prev.evalArgsF rest σ' with
        | none => none
        | some (.error e, σ'') => some (.error e, σ'')
        | some (.ok vs, σ'') => some (.ok (v :: vs), σ'')
  visitCallF := fun calle _dbg args σ =>
    match prev.visitExpressionF calle σ with
    | none => none
    | some (.error e, σ1) => some (.error e, σ1)
    | some (.ok calleValue, σ1) =>
      match prev.evalArgsF args σ1 with
      | none => none
      | some (.error e, σ2) => some (.error e, σ2)
      | some (.ok argValues, σ2) =>
        match calleValue with
        | .loxFun fid =>
          let fd := σ2.getLoxFun fid
          if fd.args.length ≠ args.length then
            some (.error (σ2.stateError ("Expected " ++ toString fd.args.length
              ++ " arguments, got " ++ toString args.length ++ ".")), σ2)
          else
            let σ3 := σ2.withEnv (fun env => env.pushClosure fd.capturedScope)
            match defineParams fd.args argValues σ3 with
            | (.error e, σ4) => some (.error e, σ4)
            | (.ok (), σ4) =>
              match prev.runF fd.body.statements σ4 with
              | none => none
              | some (bodyResult, σ5) =>
                some (callResultOf bodyResult, σ5.withEnv Environment.popClosure)
        | .foreinFun fid =>
          let fd := σ2.getForeinFun fid
          if fd.arity ≠ args.length then
            some (.error (σ2.stateError ("Expected " ++ toString fd.arity
              ++ " arguments, got " ++ toString args.length ++ ".")), σ2)
          else
            match runForeinImpl fd.impl argValues σ2 with
            | (.error e, σ3) => some (.error e, σ3)
            | (.ok v, σ3) => some (.ok v, σ3)
        | _ => some (.error (σ2.stateError "Expected a function"), σ2)

/-- The evaluator bundle at a given fuel, by iterating `mkStep`. -/
def interpAt (fuel : Nat) : StepFuns :=
  Nat.rec stepNone (fun _ ih => mkStep ih) fuel

/-- Rust `Interpreter::run`: execute statements in order, stopping at the
first `Return` result or error. -/
def interpRun (fuel : Nat) (stmts : List Statement) (σ : InterpState) :
    Option (Except Error LoxResult × InterpState) :=
  (interpAt fuel).runF stmts σ

/-- Rust `Interpreter::visit_statement`. -/
def interpVisitStatement (fuel : Nat) (s : Statement) (σ : InterpState) :
    Option (Except Error LoxResult × InterpState) :=
  (interpAt fuel).visitStatementF s σ

/-- The `while` loop of `visit_statement`: test the condition, run the body
block, propagate a `Return`, iterate. -/
def interpWhile (fuel : Nat) (condition : Expression) (body : LBlock)
    (σ : InterpState) : Option (Except Error LoxResult × InterpState) :=
  (interpAt fuel).whileF condition body σ

/-- Rust `Interpreter::run_block`: push a frame, run the statements, pop
the frame on every exit path, pass the result through. -/
def interpRunBlock (fuel : Nat) (b : LBlock) (σ : InterpState) :
    Option (Except Error LoxResult × InterpState) :=
  (interpAt fuel).runBlockF b σ

/-- The expression dispatch in `Interpreter::visit_expression` (the value
of the local `result` before the rewrapping match). -/
def interpVisitExpressionInner (fuel : Nat) (e : Expression) (σ : InterpState) :
    Option (Except Error LoxValue × InterpState) :=
  (interpAt fuel).visitExpressionInnerF e σ

/-- Rust `Interpreter::visit_expression`: dispatch, then rewrap any
`InternalRuntimeError` into a `RuntimeError` at the tracked location. -/
def interpVisitExpression (fuel : Nat) (e : Expression) (σ : InterpState) :
    Option (Except Error LoxValue × InterpState) :=
  (interpAt fuel).visitExpressionF e σ

/-- Rust `Interpreter::visit_binary`: evaluate left then right, set the
tracked location to the operator's, apply the value primitive. -/
def interpVisitBinary (fuel : Nat) (left : Expression) (op : BinaryOperator)
    (right : Expression) (σ : InterpState) :
    Option (Except Error LoxValue × InterpState) :=
  (interpAt fuel).visitBinaryF left op right σ

/-- Rust `Interpreter::visit_unary`. -/
def interpVisitUnary (fuel : Nat) (op : UnaryOperator) (right : Expression)
    (σ : InterpState) : Option (Except Error LoxValue × InterpState) :=
  (interpAt fuel).visitUnaryF op right σ

/-- Rust `Interpreter::visit_assignment`. -/
def interpVisitAssignment (fuel : Nat) (target : Identifier) (value : Expression)
    (σ : InterpState) : Option (Except Error LoxValue × InterpState) :=
  (interpAt fuel).visitAssignmentF target value σ

/-- Rust `Interpreter::visit_logical`: short-circuiting `and`/`or`,
returning an operand value. -/
def interpVisitLogical (fuel : Nat) (left : Expression) (op : LogicalOperator)
    (right : Expression) (σ : InterpState) :
    Option (Except Error LoxValue × InterpState) :=
  (interpAt fuel).visitLogicalF left op right σ

/-- The argument loop of `visit_call`: evaluate arguments left to right. -/
def interpEvalArgs (fuel : Nat) (args : List Expression) (σ : InterpState) :
    Option (Except Error (List LoxValue) × InterpState) :=
  (interpAt fuel).evalArgsF args σ

/-- Rust `Interpreter::visit_call`: evaluate the callee, then the arguments
left to right; dispatch on the callable kind; for a `LoxFun`, check arity,
push the captured frame (`push_closure`), bind parameters (an error here
propagates WITHOUT `pop_closure`, mirroring the `?` in the Rust loop), run
the body, map its terminal signal, and `pop_closure`. -/
def interpVisitCall (fuel : Nat) (calle : Expression) (dbg : DebugInfo)
    (args : List Expression) (σ : InterpState) :
    Option (Except Error LoxValue × InterpState) :=
  (interpAt fuel).visitCallF calle dbg args σ

/-- Rust `Interpreter::execute`: install the access table, then run. -/
def interpExecute (fuel : Nat) (σ : InterpState) (stmts : List Statement)
    (t : AccessTable) : Option (Except Error LoxResult × InterpState) :=
  match σ.env.extendAccessTable t with
  | .error _ => some (.error (σ.stateError "Error while updating access_table"), σ)
  | .ok env' => interpRun fuel stmts { σ with env := env' }

/-- The scan→parse→resolve→execute driver (`main.rs::run`), starting from
the AST: resolve, then execute on a fresh interpreter.  `none` when
resolution fails or fuel runs out. -/
def runInterp (fuel : Nat) (prog : List Statement) :
    Option (Except Error LoxResult × InterpState) :=
  match resolve prog with
  | .error _ => none
  | .ok table => interpExecute fuel InterpState.initial prog table

/-- Projection of `runInterp` to the call result. -/
def runResult (fuel : Nat) (prog : List Statement) : Option (Except Error LoxResult) :=
  (runInterp fuel prog).map (fun p => p.1)

/-- Projection of `runInterp` to the final value of a global variable. -/
def finalGlobal (fuel : Nat) (prog : List Statement) (name : String) :
    Option (Option LoxValue) :=
  (runInterp fuel prog).map (fun p => p.2.env.getGlobal name)

/-- The access table produced by a successful resolution. -/
def resolveTable (prog : List Statement) : Option AccessTable :=
  match resolve prog with
  | .ok t => some t
  | .error _ => none

/-- The kind tag of a runtime value (which constructor it uses). -/
inductive LoxKind where
  | numberK | boolK | stringK | loxFunK | foreinFunK | nilK
deriving DecidableEq

def LoxValue.kind : LoxValue → LoxKind
  | .number _ => .numberK
  | .bool _ => .boolK
  | .string _ => .stringK
  | .loxFun _ => .loxFunK
  | .foreinFun _ => .foreinFunK
  | .nil => .nilK

/-! ## Syntactic conditions used by the frame-restoration theorem

A parameter-binding `define` during a call can only fail when two
parameters of the called function share a name; `stmtOK` rules that out,
recursively through nested function declarations. -/

/-- Pairwise distinctness of a name list. -/
def distinctNames : List String → Bool
  | [] => true
  | n :: rest => !(rest.contains n) && distinctNames rest

mutual
/-- Every function declaration reachable in this statement has pairwise
distinct parameter names. -/
def stmtOK : Statement → Bool
  | .funDecl _ args body => distinctNames (args.map (fun a => a.name)) && blockOK body
  | .block b => blockOK b
  | .ifS _ t e =>
      blockOK t && (match e with | some b => blockOK b | none => true)
  | .whileS _ b => blockOK b
  | _ => true

def blockOK : LBlock → Bool
  | .mk stmts => stmtsOK stmts

def stmtsOK : List Statement → Bool
  | [] => true
  | s :: rest => stmtOK s && stmtsOK rest
end

/-- A function object with pairwise distinct parameter names and a clean
body. -/
def funOK (fd : LoxFun) : Bool :=
  distinctNames (fd.args.map (fun a => a.name)) && blockOK fd.body

/-- Every allocated function object in the state is clean. -/
def stateOK (σ : InterpState) : Bool :=
  σ.loxFuns.all funOK

/-- State preservation: the environment's head frame, closure stack and
global are unchanged, the frame arena only grew, parent links of
pre-existing frames are untouched, and cleanliness of the function arena is
preserved. -/
def Pres (σ σ' : InterpState) : Prop :=
  σ'.env.head = σ.env.head
  ∧ σ'.env.closureStack = σ.env.closureStack
  ∧ σ'.env.global = σ.env.global
  ∧ σ.env.frames.length ≤ σ'.env.frames.length
  ∧ (∀ i, i < σ.env.frames.length → (σ'.env.frameAt i).parent = (σ.env.frameAt i).parent)
  ∧ (stateOK σ = true → stateOK σ' = true)

/-! ## Concrete programs used by the claims

Identifier ids are assigned 1, 2, 3, … in source order, as the parser
assigns a fresh id to each identifier occurrence; debug locations are
plausible line:column positions. -/

/-- Shorthand for a debug location. -/
def dgi (l p : Nat) : DebugInfo := ⟨l, p, ""⟩

/-- Shorthand for an integer number literal expression. -/
def numE (n : Int) (p : Nat) : Expression := .literal (.numberL (.val n 1) (dgi 1 p))

/-- Shorthand for a string literal expression. -/
def strE (s : String) (p : Nat) : Expression := .literal (.stringL s (dgi 1 p))

/-- The program
`var a = "global"; { fun f(){ return a; } var a = "local"; return f(); }`. -/
def progShadowing : List Statement :=
  [ .varDecl ⟨"a", dgi 1 5, 1⟩ (some (strE "global" 9)),
    .block (.mk
      [ .funDecl ⟨"f", dgi 1 25, 2⟩ []
          (.mk [ .ret (some (.identifier ⟨"a", dgi 1 37, 3⟩)) ]),
        .varDecl ⟨"a", dgi 1 46, 4⟩ (some (strE "local" 50)),
        .ret (some (.call (.identifier ⟨"f", dgi 1 66, 5⟩) (dgi 1 67) [])) ]) ]

/-- The program `var a = a;` at global scope. -/
def progGlobalSelfRef : List Statement :=
  [ .varDecl ⟨"a", dgi 1 5, 1⟩ (some (.identifier ⟨"a", dgi 1 9, 2⟩)) ]

/-- The program `{ var a = a; }`. -/
def progBlockSelfRef : List Statement :=
  [ .block (.mk [ .varDecl ⟨"a", dgi 1 9, 1⟩ (some (.identifier ⟨"a", dgi 1 13, 2⟩)) ]) ]

/-- The program `fun f(a, a) { } f(1, 2);` — duplicate parameter names,
which parser and resolver both accept. -/
def progDupParams : List Statement :=
  [ .funDecl ⟨"f", dgi 1 5, 1⟩ [⟨"a", dgi 1 7, 2⟩, ⟨"a", dgi 1 10, 3⟩] (.mk []),
    .expression (.call (.identifier ⟨"f", dgi 1 16, 4⟩) (dgi 1 17)
      [numE 1 18, numE 2 21]) ]

/-- The program
`fun test() { var i = 0; while (i < 10) { if (i == 5) { return i; } i = i + 1; } } return test();`. -/
def progLoopReturn : List Statement :=
  [ .funDecl ⟨"test", dgi 1 5, 1⟩ [] (.mk
      [ .varDecl ⟨"i", dgi 2 5, 2⟩ (some (numE 0 9)),
        .whileS (.binary (.identifier ⟨"i", dgi 3 8, 3⟩) (.less (dgi 3 10)) (numE 10 12))
          (.mk
            [ .ifS (.binary (.identifier ⟨"i", dgi 4 7, 4⟩) (.equal (dgi 4 9)) (numE 5 12))
                (.mk [ .ret (some (.identifier ⟨"i", dgi 4 24, 5⟩)) ]) none,
              .expression (.assignment ⟨"i", dgi 5 3, 6⟩
                (.binary (.identifier ⟨"i", dgi 5 7, 7⟩) (.add (dgi 5 9)) (numE 1 11))) ]) ]),
    .ret (some (.call (.identifier ⟨"test", dgi 7 8, 8⟩) (dgi 7 12) [])) ]

/-- The program `fun noRet() { var i = 0; } return noRet();`. -/
def progNoReturn : List Statement :=
  [ .funDecl ⟨"noRet", dgi 1 5, 1⟩ []
      (.mk [ .varDecl ⟨"i", dgi 1 19, 2⟩ (some (numE 0 23)) ]),
    .ret (some (.call (.identifier ⟨"noRet", dgi 1 35, 3⟩) (dgi 1 40) [])) ]

/-- The program `fun f(p) { return p; } return f(41);`; the use of `p` in
the body (id 3) appears directly in the function body. -/
def progParamDepth : List Statement :=
  [ .funDecl ⟨"f", dgi 1 5, 1⟩ [⟨"p", dgi 1 7, 2⟩]
      (.mk [ .ret (some (.identifier ⟨"p", dgi 1 19, 3⟩)) ]),
    .ret (some (.call (.identifier ⟨"f", dgi 1 31, 4⟩) (dgi 1 32) [numE 41 33])) ]

/-- The program
`fun mk() { fun inner() { } return inner; } var x = mk(); var y = mk(); var same = x == y;` —
two closures produced by the same declaration text. -/
def progClosureEq : List Statement :=
  [ .funDecl ⟨"mk", dgi 1 5, 1⟩ [] (.mk
      [ .funDecl ⟨"inner", dgi 1 14, 2⟩ [] (.mk []),
        .ret (some (.identifier ⟨"inner", dgi 1 30, 3⟩)) ]),
    .varDecl ⟨"x", dgi 2 5, 4⟩
      (some (.call (.identifier ⟨"mk", dgi 2 9, 5⟩) (dgi 2 11) [])),
    .varDecl ⟨"y", dgi 3 5, 6⟩
      (some (.call (.identifier ⟨"mk", dgi 3 9, 7⟩) (dgi 3 11) [])),
    .varDecl ⟨"same", dgi 4 5, 8⟩ (some (.binary (.identifier ⟨"x", dgi 4 12, 9⟩)
      (.equal (dgi 4 14)) (.identifier ⟨"y", dgi 4 17, 10⟩))) ]

/-- The program
`var log = ""; fun f(x, y) { return 0; } fun h() { log = log + "c"; return f; }
var r = (h())((log = log + "a"), (log = log + "b"));` — observing
evaluation order through the global `log`. -/
def progCallOrder : List Statement :=
  [ .varDecl ⟨"log", dgi 1 5, 1⟩ (some (strE "" 11)),
    .funDecl ⟨"f", dgi 2 5, 2⟩ [⟨"x", dgi 2 7, 3⟩, ⟨"y", dgi 2 10, 4⟩]
      (.mk [ .ret (some (numE 0 20)) ]),
    .funDecl ⟨"h", dgi 3 5, 5⟩ [] (.mk
      [ .expression (.assignment ⟨"log", dgi 3 11, 6⟩
          (.binary (.identifier ⟨"log", dgi 3 17, 7⟩) (.add (dgi 3 21)) (strE "c" 23))),
        .ret (some (.identifier ⟨"f", dgi 3 35, 8⟩)) ]),
    .varDecl ⟨"r", dgi 4 5, 9⟩ (some (.call
      (.call (.identifier ⟨"h", dgi 4 9, 10⟩) (dgi 4 10) [])
      (dgi 4 12)
      [ .assignment ⟨"log", dgi 4 14, 11⟩
          (.binary (.identifier ⟨"log", dgi 4 20, 12⟩) (.add (dgi 4 24)) (strE "a" 26)),
        .assignment ⟨"log", dgi 4 31, 13⟩
          (.binary (.identifier ⟨"log", dgi 4 37, 14⟩) (.add (dgi 4 41)) (strE "b" 43)) ])) ]

/-- The program `var ran = false; fun g(x) { ran = true; } g();` — a
1-parameter function called with 0 arguments. -/
def progArityZero : List Statement :=
  [ .varDecl ⟨"ran", dgi 1 5, 1⟩ (some (.literal (.falseL (dgi 1 11)))),
    .funDecl ⟨"g", dgi 2 5, 2⟩ [⟨"x", dgi 2 7, 3⟩]
      (.mk [ .expression (.assignment ⟨"ran", dgi 2 13, 4⟩
        (.literal (.trueL (dgi 2 19)))) ]),
    .expression (.call (.identifier ⟨"g", dgi 3 1, 5⟩) (dgi 3 2) []) ]

/-- The program `var ran = false; fun g(x) { ran = true; } g(1, 2);` — a
1-parameter function called with 2 arguments. -/
def progArityTwo : List Statement :=
  [ .varDecl ⟨"ran", dgi 1 5, 1⟩ (some (.literal (.falseL (dgi 1 11)))),
    .funDecl ⟨"g", dgi 2 5, 2⟩ [⟨"x", dgi 2 7, 3⟩]
      (.mk [ .expression (.assignment ⟨"ran", dgi 2 13, 4⟩
        (.literal (.trueL (dgi 2 19)))) ]),
    .expression (.call (.identifier ⟨"g", dgi 3 1, 5⟩) (dgi 3 2) [numE 1 3, numE 2 6]) ]

/-- A one-statement block `{ return nil; }` used as a witness input. -/
def witnessBlock : LBlock := .mk [ .ret (some (.literal (.nilL (dgi 1 3)))) ]

/-- The state after running `witnessBlock` from the initial state. -/
def witnessBlockState : InterpState :=
  ((interpRunBlock 5 witnessBlock InterpState.initial).map (fun p => p.2)).getD
    InterpState.initial

/-- A witness identifier for the `define` specification. -/
def witnessIdent : Identifier := ⟨"a", dgi 2 5, 9⟩

/-- A witness environment whose head frame (index 1) is empty while the
global frame already binds `"a"` (the ancestor-shadowing situation). -/
def witnessEnv : Environment :=
  { frames := [⟨[("a", ⟨.number (.val 1 1), dgi 1 1⟩)], none⟩, ⟨[], some 0⟩],
    closureStack := [], accessTable := ⟨[]⟩, head := 1, global := 0 }

/-- Whether a result is an `InternalRuntimeError` (the error kind that
collaborators must never observe). -/
def isInternalError {α : Type} : Except Error α → Bool
  | .error (.internalRuntimeError _) => true
  | _ => false

deriving instance DecidableEq for Except


/-- An expression that negates a string (`-"x"`), forcing the
`InternalRuntimeError` produced by `LoxValue.negative` through the
rewrapping match of `visit_expression`. -/
def negStringExpr : Expression := .unary (.negative (dgi 2 3)) (strE "x" 5)

/-- The program `-"x";`. -/
def progNegate : List Statement := [ .expression negStringExpr ]

/-- The outcome of executing `progNegate` with an empty access table. -/
def negateOutcome : Option (Except Error LoxResult × InterpState) :=
  interpExecute 6 InterpState.initial progNegate ⟨[]⟩

/-- The result component of `negateOutcome`. -/
def negateResult : Except Error LoxResult :=
  (negateOutcome.map (fun p => p.1)).getD (.ok .normal)

/-- The state component of `negateOutcome`. -/
def negateState : InterpState :=
  (negateOutcome.map (fun p => p.2)).getD InterpState.initial

/-- The state at which the dispatch of `negStringExpr` produces its
internal error (the tracked location has been set to the operator's). -/
def negateInnerState : InterpState :=
  ((interpVisitExpressionInner 3 negStringExpr InterpState.initial).map
    (fun p => p.2)).getD InterpState.initial


/-- A state whose function arena holds one zero-parameter function `f`
with an empty body, bound to the name `f` in the global frame. -/
def c2State : InterpState :=
  (({ InterpState.initial with
      loxFuns := [⟨⟨"f", dgi 1 5, 1⟩, 0, [], .mk []⟩] }).envDefine
    ⟨"f", dgi 1 5, 1⟩ (.loxFun 0)).2

/-- The callee expression `f` of the call `f()`. -/
def c2Callee : Expression := .identifier ⟨"f", dgi 1 10, 2⟩

/-- The outcome of evaluating the call `f()` in `c2State`. -/
def c2Outcome : Option (Except Error LoxValue × InterpState) :=
  interpVisitCall 3 c2Callee (dgi 1 11) [] c2State

/-- The result component of `c2Outcome`. -/
def c2Result : Except Error LoxValue :=
  (c2Outcome.map (fun p => p.1)).getD (.ok .nil)

/-- The state component of `c2Outcome`. -/
def c2StateAfter : InterpState :=
  (c2Outcome.map (fun p => p.2)).getD c2State

/-! ## Unfolding equations for the fuel-indexed bundles -/

theorem interpAt_succ (n : Nat) : interpAt (n + 1) = mkStep (interpAt n) := rfl

theorem interpAt_zero : interpAt 0 = stepNone := rfl

theorem runF_eq (n : Nat) : (interpAt n).runF = interpRun n := rfl

theorem visitStatementF_eq (n : Nat) :
    (interpAt n).visitStatementF = interpVisitStatement n := rfl

theorem whileF_eq (n : Nat) : (interpAt n).whileF = interpWhile n := rfl

theorem runBlockF_eq (n : Nat) : (interpAt n).runBlockF = interpRunBlock n := rfl

theorem visitExpressionF_eq (n : Nat) :
    (interpAt n).visitExpressionF = interpVisitExpression n := rfl

theorem visitExpressionInnerF_eq (n : Nat) :
    (interpAt n).visitExpressionInnerF = interpVisitExpressionInner n := rfl

theorem visitBinaryF_eq (n : Nat) :
    (interpAt n).visitBinaryF = interpVisitBinary n := rfl

theorem visitUnaryF_eq (n : Nat) :
    (interpAt n).visitUnaryF = interpVisitUnary n := rfl

theorem visitAssignmentF_eq (n : Nat) :
    (interpAt n).visitAssignmentF = interpVisitAssignment n := rfl

theorem visitLogicalF_eq (n : Nat) :
    (interpAt n).visitLogicalF = interpVisitLogical n := rfl

theorem evalArgsF_eq (n : Nat) : (interpAt n).evalArgsF = interpEvalArgs n := rfl

theorem visitCallF_eq (n : Nat) : (interpAt n).visitCallF = interpVisitCall n := rfl

/-- `visit_expression` is the rewrapping match around the dispatch. -/
theorem visitExpression_rewrap (n : Nat) (e : Expression) (σ : InterpState) :
    interpVisitExpression (n + 1) e σ =
      match interpVisitExpressionInner (n + 1) e σ with
      | none => none
      | some (.error (.internalRuntimeError message), σ') =>
          some (.error (.runtimeError σ'.line σ'.position message), σ')
      | some (r, σ') => some (r, σ') := rfl

/-! ## Claim theorems -/

/-- C1: running
`var a = "global"; { fun f(){ return a; } var a = "local"; return f(); }`
returns the value `"global"`; the resolver leaves the use of `a` inside
`f` (id 3) unresolved in the access table — it is looked up in the global
frame — because the block-local `a` is not yet declared when `f` is
resolved, and the use of `f` (id 5) resolves to the enclosing block frame
(walk distance 0). -/
theorem c1_shadowing_resolved_at_declaration :
    runResult 100 progShadowing = some (.ok (.ret (.string "global")))
    ∧ (resolveTable progShadowing).map (fun t => t.get 3) = some none
    ∧ (resolveTable progShadowing).map (fun t => (t.get 5).map ScopeDepth.get)
      = some (some 0) :=
  ⟨by decide, by decide, by decide⟩

/-- C5: resolving `{ var a = a; }` fails with the initializer
self-reference `ResolverError` before any execution, while `var a = a;`
at global scope resolves successfully (to an empty access table), because
global scope has no not-yet-initialized tracking. -/
theorem c5_initializer_self_reference :
    resolve progBlockSelfRef
      = .error (.resolverError 1 13 "Can't read local variable in its initializer.")
    ∧ resolve progGlobalSelfRef = .ok ⟨[]⟩ :=
  ⟨by decide, by decide⟩

/-- C10: `var a = a;` at global scope resolves successfully but fails at
runtime with a `RuntimeError` saying the variable is not defined: the
initializer is evaluated — and its unresolved identifier looked up in the
global frame — before `define` inserts the binding. -/
theorem c10_global_self_reference_runtime_error :
    resolve progGlobalSelfRef = .ok ⟨[]⟩
    ∧ runResult 100 progGlobalSelfRef
      = some (.error (.runtimeError 1 9 "Variable a not defined!")) :=
  ⟨by decide, by decide⟩

/-- C8: a call evaluates the callee first, then the arguments left to
right (observed through the global `log`: the callee's side effect "c"
precedes the arguments' "a" and "b"); an arity mismatch on a 1-parameter
function called with 0 or 2 arguments raises a `RuntimeError` naming the
expected and actual counts, the body is never executed (`ran` stays
false), and no parameter binding occurs (no frame is ever allocated
beyond the global frame). -/
theorem c8_call_order_arity :
    finalGlobal 300 progCallOrder "log" = some (some (.string "cab"))
    ∧ runResult 100 progArityZero
      = some (.error (.runtimeError 0 0 "Expected 1 arguments, got 0."))
    ∧ finalGlobal 100 progArityZero "ran" = some (some (.bool false))
    ∧ (runInterp 100 progArityZero).map (fun p => p.2.env.frames.length) = some 1
    ∧ runResult 100 progArityTwo
      = some (.error (.runtimeError 0 0 "Expected 1 arguments, got 2."))
    ∧ finalGlobal 100 progArityTwo "ran" = some (some (.bool false)) :=
  ⟨by decide, by decide, by decide, by decide, by decide, by decide⟩

/-- C4 counterexample: for `fun f(p) { return p; }`, the use of `p`
directly in the body does NOT get scope depth 1: the access table's walk
distance for it is 0, because `resolve_function` resolves the body in the
same scope as the parameters (no further nested block scope). -/
theorem c4_param_depth_counterexample :
    ¬ ((resolveTable progParamDepth).map (fun t => (t.get 3).map ScopeDepth.get)
        = some (some 1)) := by decide

/-- C4 amended: the resolver opens ONE scope per function declaration, in
which the parameters are declared and defined and the body statements are
resolved directly (no extra block scope); an identifier use directly in
the body referring to a parameter therefore gets walk distance 0 (a
stored `ScopeDepth` of raw value 1), and at runtime it is found in the
single frame pushed by `push_closure`, so `fun f(p) { return p; }
return f(41);` returns 41. -/
theorem c4_param_scope_amended :
    (resolveTable progParamDepth).map (fun t => (t.get 3).map ScopeDepth.get)
      = some (some 0)
    ∧ (resolveTable progParamDepth).map (fun t => (t.get 3).map (fun d => d.raw))
      = some (some 1)
    ∧ runResult 100 progParamDepth = some (.ok (.ret (.number (.val 41 1)))) :=
  ⟨by decide, by decide, by decide⟩

/-- C2 counterexample: for `fun f(a, a) { } f(1, 2);` (accepted by parser
and resolver) the call passes the arity check, binding the second
parameter fails with a `RuntimeError`, and the error propagates without
`pop_closure`: the head frame after the call (index 1, the callee frame)
differs from the head frame before the call (index 0, the global frame),
and the saved frame is left on the closure stack. -/
theorem c2_param_binding_skips_pop_counterexample :
    runResult 100 progDupParams
      = some (.error (.runtimeError 1 10 "Variable a already defined at 1:7!"))
    ∧ (runInterp 100 progDupParams).map (fun p => (p.2.env.head, p.2.env.closureStack))
      = some (1, [0])
    ∧ InterpState.initial.env.head = 0
    ∧ InterpState.initial.env.closureStack = [] :=
  ⟨by decide, by decide, by decide, by decide⟩

/-- C3: a `Return` signal propagates unchanged through enclosing `Block`,
`If` and `While` statement execution and through statement sequences
(later statements are skipped); at the function-call boundary the body's
terminal signal becomes the call's value (`Return v` ↦ `v`, falling off
the end ↦ `Nil`); concretely, a function whose body is a loop containing
`if (i == 5) { return i; }` with loop bound 10 returns 5 (not Nil), and a
function body without a return yields Nil. -/
theorem c3_return_propagation :
    (∀ n b σ v σ', interpRunBlock n b σ = some (.ok (.ret v), σ') →
        interpVisitStatement (n + 1) (.block b) σ = some (.ok (.ret v), σ'))
  ∧ (∀ n c tB eB σ cv σ1 v σ',
        interpVisitExpression n c σ = some (.ok cv, σ1) → cv.isTruthy = true →
        interpRunBlock n tB σ1 = some (.ok (.ret v), σ') →
        interpVisitStatement (n + 1) (.ifS c tB eB) σ = some (.ok (.ret v), σ'))
  ∧ (∀ n c b σ cv σ1 v σ',
        interpVisitExpression n c σ = some (.ok cv, σ1) → cv.isTruthy = true →
        interpRunBlock n b σ1 = some (.ok (.ret v), σ') →
        interpVisitStatement (n + 2) (.whileS c b) σ = some (.ok (.ret v), σ'))
  ∧ (∀ n s rest σ v σ', interpVisitStatement n s σ = some (.ok (.ret v), σ') →
        interpRun (n + 1) (s :: rest) σ = some (.ok (.ret v), σ'))
  ∧ (∀ n calle dbg args σ fid σ1 argVals σ2 σ4 bodyR σ5,
        interpVisitExpression n calle σ = some (.ok (.loxFun fid), σ1) →
        interpEvalArgs n args σ1 = some (.ok argVals, σ2) →
        (σ2.getLoxFun fid).args.length = args.length →
        defineParams (σ2.getLoxFun fid).args argVals
          (σ2.withEnv (fun env => env.pushClosure (σ2.getLoxFun fid).capturedScope))
          = (.ok (), σ4) →
        interpRun n (σ2.getLoxFun fid).body.statements σ4 = some (bodyR, σ5) →
        interpVisitCall (n + 1) calle dbg args σ
          = some (callResultOf bodyR, σ5.withEnv Environment.popClosure))
  ∧ runResult 25 progLoopReturn = some (.ok (.ret (.number (.val 5 1))))
  ∧ runResult 100 progNoReturn = some (.ok (.ret .nil)) := by
  refine ⟨?_, ?_, ?_, ?_, ?_, by decide, by decide⟩
  · intro n b σ v σ' h
    exact h
  · intro n c tB eB σ cv σ1 v σ' h1 ht h2
    simp only [interpVisitStatement, interpAt_succ, mkStep, visitExpressionF_eq,
      runBlockF_eq, h1, ht, if_true]
    exact h2
  · intro n c b σ cv σ1 v σ' h1 ht h2
    show interpWhile (n + 1) c b σ = _
    simp only [interpWhile, interpAt_succ, mkStep, visitExpressionF_eq,
      runBlockF_eq, h1, ht, if_true, h2]
  · intro n s rest σ v σ' h
    simp only [interpRun, interpAt_succ, mkStep, visitStatementF_eq, h]
  · intro n calle dbg args σ fid σ1 argVals σ2 σ4 bodyR σ5 h1 h2 harity hbind hbody
    simp only [interpVisitCall, interpAt_succ, mkStep, visitExpressionF_eq,
      evalArgsF_eq, runF_eq, h1, h2, harity, ne_eq, not_true_eq_false, if_false,
      hbind, hbody]

/-- C3 witness: instantiating the block-propagation conjunct on the
concrete block `{ return nil; }` and the initial interpreter state. -/
theorem c3_return_propagation_witness :
    interpVisitStatement 6 (.block witnessBlock) InterpState.initial
      = some (.ok (.ret .nil), witnessBlockState) :=
  c3_return_propagation.1 5 witnessBlock InterpState.initial .nil witnessBlockState
    (by rfl)

theorem list_getElem?_set_self {α : Type} (l : List α) (i : Nat) (a : α)
    (h : i < l.length) : (l.set i a)[i]? = some a := by
  induction l generalizing i with
  | nil => simp at h
  | cons x xs ih =>
    cases i with
    | zero => simp
    | succ j => simpa using ih j (by simpa using h)

theorem list_getElem?_set_ne {α : Type} (l : List α) (i j : Nat) (a : α)
    (h : i ≠ j) : (l.set i a)[j]? = l[j]? := by
  induction l generalizing i j with
  | nil => simp
  | cons x xs ih =>
    cases i with
    | zero => cases j with
      | zero => exact absurd rfl h
      | succ j' => simp
    | succ i' => cases j with
      | zero => simp
      | succ j' => simpa using ih i' j' (by omega)

/-- Every result of `visit_expression` is free of `InternalRuntimeError`:
whatever the dispatch produced, the final match rewraps that error kind. -/
theorem exprResultClean (n : Nat) (e : Expression) (σ : InterpState)
    (r : Except Error LoxValue) (σ' : InterpState)
    (h : interpVisitExpression n e σ = some (r, σ')) : isInternalError r = false := by
  match n with
  | 0 =>
    rw [show interpVisitExpression 0 e σ = none from rfl] at h
    cases h
  | n + 1 =>
    rw [visitExpression_rewrap] at h
    rcases hin : interpVisitExpressionInner (n + 1) e σ with _ | ⟨r0, σ0⟩
    · rw [hin] at h
      cases h
    · rw [hin] at h
      rcases r0 with er | v
      · cases er <;> simp at h <;> obtain ⟨h1, -⟩ := h <;> rw [← h1] <;> rfl
      · simp at h
        obtain ⟨h1, -⟩ := h
        rw [← h1]
        rfl

/-- `self.environment.define` never produces an `InternalRuntimeError`. -/
theorem envDefineClean (σ : InterpState) (i : Identifier) (v : LoxValue) :
    isInternalError (σ.envDefine i v).1 = false := by
  simp only [InterpState.envDefine, Environment.define]
  rcases alGet (σ.env.frameAt σ.env.head).values i.name with _ | ex <;> rfl

/-- `defineParams` never produces an `InternalRuntimeError`. -/
theorem defineParamsClean : ∀ (params : List Identifier) (vals : List LoxValue)
    (σ : InterpState), isInternalError (defineParams params vals σ).1 = false := by
  intro params
  induction params with
  | nil => intro vals σ; rfl
  | cons p ps ih =>
    intro vals σ
    cases vals with
    | nil => rfl
    | cons v vs =>
      simp only [defineParams]
      rcases hd : σ.envDefine p v with ⟨r0, σ0⟩
      rcases r0 with e | _
      · have hc := envDefineClean σ p v
        rw [hd] at hc
        simpa using hc
      · simpa using ih vs σ0


/-- Projection of a some-pair equation to the first components. -/
theorem someFst {α β : Type} {c r : α} {s s' : β}
    (h : (some (c, s) : Option (α × β)) = some (r, s')) : r = c := by
  injection h with h1
  injection h1 with h2 h3
  exact h2.symm

/-- Projection of a some-pair equation to the second components. -/
theorem someSnd {α β : Type} {c r : α} {s s' : β}
    (h : (some (c, s) : Option (α × β)) = some (r, s')) : s' = s := by
  injection h with h1
  injection h1 with h2 h3
  exact h3.symm

/-- Cleanliness of an `Except.error` transfers across the value type. -/
theorem errCross {α β : Type} {e : Error}
    (h : isInternalError (Except.error e : Except Error α) = false) :
    isInternalError (Except.error e : Except Error β) = false := by
  cases e <;> exact h

/-- No statement-level evaluator function ever answers with an
`InternalRuntimeError`: expression results are clean by the rewrap
(`exprResultClean`), `define` errors are user-facing `RuntimeError`s, and
everything else propagates, by induction on the fuel. -/
theorem stmtResultClean : ∀ n : Nat,
    (∀ stmts σ r σ', interpRun n stmts σ = some (r, σ') → isInternalError r = false)
    ∧ (∀ s σ r σ', interpVisitStatement n s σ = some (r, σ') → isInternalError r = false)
    ∧ (∀ c b σ r σ', interpWhile n c b σ = some (r, σ') → isInternalError r = false)
    ∧ (∀ b σ r σ', interpRunBlock n b σ = some (r, σ') → isInternalError r = false) := by
  intro n
  induction n with
  | zero =>
    refine ⟨fun stmts σ r σ' h => ?_, fun s σ r σ' h => ?_,
        fun c b σ r σ' h => ?_, fun b σ r σ' h => ?_⟩ <;>
      simp [interpRun, interpVisitStatement, interpWhile, interpRunBlock,
        interpAt_zero, stepNone] at h
  | succ n ih =>
    obtain ⟨ihR, ihS, ihW, ihB⟩ := ih
    refine ⟨?_, ?_, ?_, ?_⟩
    · intro stmts σ r σ' h
      cases stmts with
      | nil =>
        rw [someFst h]
        rfl
      | cons s rest =>
        simp only [interpRun, interpAt_succ, mkStep] at h
        simp only [visitStatementF_eq, runF_eq] at h
        rcases hs : interpVisitStatement n s σ with _ | ⟨r0, σ0⟩
        · rw [hs] at h
          exact Option.noConfusion h
        · rw [hs] at h
          rcases r0 with er | lr
          · rw [someFst h]
            exact ihS s σ (.error er) σ0 hs
          · rcases lr with v | _
            · rw [someFst h]
              rfl
            · exact ihR rest σ0 r σ' h
    · intro s σ r σ' h
      cases s with
      | nop =>
        rw [someFst h]
        rfl
      | expression e =>
        simp only [interpVisitStatement, interpAt_succ, mkStep] at h
        simp only [visitExpressionF_eq] at h
        split at h
        · exact Option.noConfusion h
        · rename_i er σ0 heq
          rw [someFst h]
          exact errCross (exprResultClean n e σ (.error er) σ0 heq)
        · rw [someFst h]
          rfl
      | print e =>
        simp only [interpVisitStatement, interpAt_succ, mkStep] at h
        simp only [visitExpressionF_eq] at h
        split at h
        · exact Option.noConfusion h
        · rename_i er σ0 heq
          rw [someFst h]
          exact errCross (exprResultClean n e σ (.error er) σ0 heq)
        · rw [someFst h]
          rfl
      | varDecl name init =>
        cases init with
        | none =>
          simp only [interpVisitStatement, interpAt_succ, mkStep] at h
          split at h
          · rename_i er σ1 heq
            rw [someFst h]
            have hc := envDefineClean σ name .nil
            rw [heq] at hc
            exact errCross hc
          · rw [someFst h]
            rfl
        | some initializer =>
          simp only [interpVisitStatement, interpAt_succ, mkStep] at h
          simp only [visitExpressionF_eq] at h
          split at h
          · exact Option.noConfusion h
          · rename_i er σ0 heq
            rw [someFst h]
            exact errCross (exprResultClean n initializer σ (.error er) σ0 heq)
          · rename_i v σ0 heq
            split at h
            · rename_i er σ1 heq2
              rw [someFst h]
              have hc := envDefineClean σ0 name v
              rw [heq2] at hc
              exact errCross hc
            · rw [someFst h]
              rfl
      | block b =>
        simp only [interpVisitStatement, interpAt_succ, mkStep] at h
        simp only [runBlockF_eq] at h
        exact ihB b σ r σ' h
      | ifS condition thenB elseB =>
        simp only [interpVisitStatement, interpAt_succ, mkStep] at h
        simp only [visitExpressionF_eq, runBlockF_eq] at h
        split at h
        · exact Option.noConfusion h
        · rename_i er σ0 heq
          rw [someFst h]
          exact errCross (exprResultClean n condition σ (.error er) σ0 heq)
        · rename_i c σ0 heq
          split at h
          · exact ihB thenB σ0 r σ' h
          · split at h
            · rename_i b
              exact ihB b σ0 r σ' h
            · rw [someFst h]
              rfl
      | whileS condition body =>
        simp only [interpVisitStatement, interpAt_succ, mkStep] at h
        simp only [whileF_eq] at h
        exact ihW condition body σ r σ' h
      | funDecl name args body =>
        simp only [interpVisitStatement, interpAt_succ, mkStep] at h
        split at h
        · rename_i er σ1 heq
          rw [someFst h]
          have hc : isInternalError (interpDefineFunction σ name args body).1 = false :=
            envDefineClean _ _ _
          rw [heq] at hc
          exact errCross hc
        · rw [someFst h]
          rfl
      | ret value =>
        cases value with
        | none =>
          rw [someFst h]
          rfl
        | some e =>
          simp only [interpVisitStatement, interpAt_succ, mkStep] at h
          simp only [visitExpressionF_eq] at h
          split at h
          · exact Option.noConfusion h
          · rename_i er σ0 heq
            rw [someFst h]
            exact errCross (exprResultClean n e σ (.error er) σ0 heq)
          · rw [someFst h]
            rfl
    · intro condition body σ r σ' h
      simp only [interpWhile, interpAt_succ, mkStep] at h
      simp only [visitExpressionF_eq, runBlockF_eq, whileF_eq] at h
      split at h
      · exact Option.noConfusion h
      · rename_i er σ0 heq
        rw [someFst h]
        exact errCross (exprResultClean n condition σ (.error er) σ0 heq)
      · rename_i c σ0 heq
        split at h
        · split at h
          · exact Option.noConfusion h
          · rename_i er σ1 heq2
            rw [someFst h]
            exact ihB body σ0 (.error er) σ1 heq2
          · rename_i v σ1 heq2
            rw [someFst h]
            rfl
          · rename_i σ1 heq2
            exact ihW condition body σ1 r σ' h
        · rw [someFst h]
          rfl
    · intro b σ r σ' h
      cases b with
      | mk stmts =>
        simp only [interpRunBlock, interpAt_succ, mkStep] at h
        simp only [runF_eq] at h
        split at h
        · exact Option.noConfusion h
        · rename_i r1 σ1 heq
          rw [someFst h]
          exact ihR stmts (σ.withEnv Environment.push) r1 σ1 heq

theorem list_set_of_le {α : Type} (l : List α) (i : Nat) (a : α)
    (h : l.length ≤ i) : l.set i a = l := by
  induction l generalizing i with
  | nil => rfl
  | cons x xs ih =>
    cases i with
    | zero => simp at h
    | succ j => simpa using ih j (by simpa using h)

theorem alGet_alInsert_ne {α : Type} (l : List (String × α)) (k k' : String)
    (v : α) (h : k ≠ k') : alGet (alInsert l k v) k' = alGet l k' := by
  induction l with
  | nil => simp [alInsert, alGet, h]
  | cons p rest ih =>
    rcases p with ⟨pk, pv⟩
    by_cases hk : pk = k
    · subst hk
      simp [alInsert, alGet, h]
    · simp only [alInsert, if_neg hk]
      by_cases hk' : pk = k'
      · simp [alGet, hk']
      · simp [alGet, hk', ih]

theorem presRefl (σ : InterpState) : Pres σ σ :=
  ⟨rfl, rfl, rfl, le_refl _, fun _ _ => rfl, fun h => h⟩

theorem presTrans {σ σ' σ'' : InterpState} (h1 : Pres σ σ') (h2 : Pres σ' σ'') :
    Pres σ σ'' := by
  obtain ⟨a1, b1, c1, d1, e1, f1⟩ := h1
  obtain ⟨a2, b2, c2, d2, e2, f2⟩ := h2
  exact ⟨a2.trans a1, b2.trans b1, c2.trans c1, d1.trans d2,
    fun i hi => (e2 i (lt_of_lt_of_le hi d1)).trans (e1 i hi), fun h => f2 (f1 h)⟩

theorem presOfEnvEq {σ σ' : InterpState} (he : σ'.env = σ.env)
    (hl : σ'.loxFuns = σ.loxFuns) : Pres σ σ' := by
  refine ⟨by rw [he], by rw [he], by rw [he], by rw [he], fun i _ => by rw [he], ?_⟩
  intro h
  simp only [stateOK] at h ⊢
  rw [hl]
  exact h

theorem presSetDebug (σ : InterpState) (d : DebugInfo) : Pres σ (σ.setDebug d) :=
  presOfEnvEq rfl rfl

theorem presStateOK {σ σ' : InterpState} (h : Pres σ σ') :
    stateOK σ = true → stateOK σ' = true := h.2.2.2.2.2

/-- `Environment::define` only changes the head frame's value map: head,
closure stack, global, arena length and all parent links are untouched. -/
theorem definePres (env : Environment) (i : Identifier) (v : LoxValue) :
    (env.define i v).2.head = env.head
    ∧ (env.define i v).2.closureStack = env.closureStack
    ∧ (env.define i v).2.global = env.global
    ∧ (env.define i v).2.frames.length = env.frames.length
    ∧ ∀ j, ((env.define i v).2.frameAt j).parent = (env.frameAt j).parent := by
  simp only [Environment.define]
  rcases alGet (env.frameAt env.head).values i.name with _ | ex
  · refine ⟨rfl, rfl, rfl, by simp, ?_⟩
    intro j
    by_cases hj : j = env.head
    · by_cases hlt : env.head < env.frames.length
      · rw [hj]
        simp only [Environment.frameAt, list_getElem?_set_self env.frames env.head _ hlt]
        rcases hg : env.frames[env.head]? with _ | f
        · exact absurd hg (by simp [List.getElem?_eq_getElem hlt])
        · simp [Environment.frameAt, hg]
      · have hle : env.frames.length ≤ env.head := le_of_not_lt hlt
        rw [hj]
        simp [Environment.frameAt, list_set_of_le env.frames env.head _ hle]
    · simp [Environment.frameAt, list_getElem?_set_ne env.frames env.head j _
        (fun hcon => hj hcon.symm)]
  · exact ⟨rfl, rfl, rfl, rfl, fun j => rfl⟩

theorem presEnvDefine (σ : InterpState) (i : Identifier) (v : LoxValue) :
    Pres σ (σ.envDefine i v).2 := by
  obtain ⟨h1, h2, h3, h4, h5⟩ := definePres σ.env i v
  exact ⟨h1, h2, h3, le_of_eq h4.symm, fun j _ => h5 j, fun h => h⟩

/-- `Environment::assign` only changes one frame's value map. -/
theorem assignPres (env : Environment) (t : String) (id : Nat) (v : LoxValue) :
    (env.assign t id v).2.head = env.head
    ∧ (env.assign t id v).2.closureStack = env.closureStack
    ∧ (env.assign t id v).2.global = env.global
    ∧ (env.assign t id v).2.frames.length = env.frames.length
    ∧ ∀ j, ((env.assign t id v).2.frameAt j).parent = (env.frameAt j).parent := by
  simp only [Environment.assign]
  rcases alGet _ t with _ | ex
  · exact ⟨rfl, rfl, rfl, rfl, fun j => rfl⟩
  · refine ⟨rfl, rfl, rfl, by simp, ?_⟩
    intro j
    by_cases hj : j = (match env.accessTable.get id with
      | some depth => env.getNthScope depth.get
      | none => env.global)
    · by_cases hlt : (match env.accessTable.get id with
          | some depth => env.getNthScope depth.get
          | none => env.global) < env.frames.length
      · rw [hj]
        simp only [Environment.frameAt, list_getElem?_set_self env.frames _ _ hlt]
        rcases hg : env.frames[(match env.accessTable.get id with
            | some depth => env.getNthScope depth.get
            | none => env.global)]? with _ | f
        · exact absurd hg (by simp [List.getElem?_eq_getElem hlt])
        · simp [Environment.frameAt, hg]
      · have hle : env.frames.length ≤ (match env.accessTable.get id with
            | some depth => env.getNthScope depth.get
            | none => env.global) := le_of_not_lt hlt
        rw [hj]
        simp [Environment.frameAt, list_set_of_le env.frames _ _ hle]
    · simp [Environment.frameAt, list_getElem?_set_ne env.frames _ j _
        (fun hcon => hj hcon.symm)]

theorem presAssign (σ : InterpState) (t : String) (id : Nat) (v : LoxValue) :
    Pres σ { σ with env := (σ.env.assign t id v).2 } := by
  obtain ⟨h1, h2, h3, h4, h5⟩ := assignPres σ.env t id v
  exact ⟨h1, h2, h3, le_of_eq h4.symm, fun j _ => h5 j, fun h => h⟩

/-- `define_function` preserves the environment shape and, when the declared
function is clean, cleanliness of the arena. -/
theorem presDefineFunction (σ : InterpState) (name : Identifier)
    (args : List Identifier) (body : LBlock)
    (hfn : (distinctNames (args.map (fun a => a.name)) && blockOK body) = true) :
    Pres σ (interpDefineFunction σ name args body).2 := by
  have hbase : Pres { σ with loxFuns := σ.loxFuns ++ [⟨name, σ.env.getCurrentFrame, args, body⟩] }
      (interpDefineFunction σ name args body).2 :=
    presEnvDefine _ _ _
  refine presTrans ?_ hbase
  refine ⟨rfl, rfl, rfl, le_refl _, fun _ _ => rfl, ?_⟩
  intro h
  have hf : funOK ⟨name, σ.env.getCurrentFrame, args, body⟩ = true := by
    simp only [funOK]
    exact hfn
  simp only [stateOK] at h
  simp [stateOK, List.all_append, h, hf]

theorem stateOK_getLoxFun {σ : InterpState} (h : stateOK σ = true) (i : Nat) :
    funOK (σ.getLoxFun i) = true := by
  simp only [InterpState.getLoxFun]
  rcases hg : σ.loxFuns[i]? with _ | fd
  · simp [funOK, LoxFun.default, distinctNames, blockOK, stmtsOK]
  · simp only [Option.getD_some]
    simp only [stateOK, List.all_eq_true] at h
    exact h fd (List.getElem?_mem hg)


theorem list_getElem?_append_left {α : Type} (l l' : List α) (i : Nat)
    (h : i < l.length) : (l ++ l')[i]? = l[i]? := by
  induction l generalizing i with
  | nil => simp at h
  | cons x xs ih =>
    cases i with
    | zero => simp
    | succ j => simpa using ih j (by simpa using h)

theorem list_getElem?_concat_length {α : Type} (l : List α) (a : α) :
    (l ++ [a])[l.length]? = some a := by
  induction l with
  | nil => rfl
  | cons x xs ih => simp [ih]

theorem blockOK_statements (b : LBlock) : stmtsOK b.statements = blockOK b := by
  cases b
  rfl

theorem runForeinImpl_state (impl : ForeinImpl) (args : List LoxValue)
    (σ : InterpState) : (runForeinImpl impl args σ).2 = σ := by
  cases impl
  rfl

theorem envDefineEnv (σ : InterpState) (i : Identifier) (v : LoxValue) :
    (σ.envDefine i v).2.env = (σ.env.define i v).2 := by
  simp only [InterpState.envDefine]

theorem envDefineFuns (σ : InterpState) (i : Identifier) (v : LoxValue) :
    (σ.envDefine i v).2.loxFuns = σ.loxFuns := by
  simp only [InterpState.envDefine]

/-- After a successful `define` of `i`, every other name still resolves in
the head frame exactly as before. -/
theorem define_head_values (env : Environment) (i : Identifier) (v : LoxValue)
    (hnone : alGet (env.frameAt env.head).values i.name = none)
    (name' : String) (hne : i.name ≠ name') :
    alGet ((env.define i v).2.frameAt (env.define i v).2.head).values name'
      = alGet (env.frameAt env.head).values name' := by
  simp only [Environment.define, hnone]
  by_cases hlt : env.head < env.frames.length
  · simp [Environment.frameAt, list_getElem?_set_self env.frames env.head _ hlt,
      alGet_alInsert_ne _ _ _ _ hne]
  · rw [list_set_of_le env.frames env.head _ (le_of_not_lt hlt)]

/-- Running a block between `push` and `pop` restores the caller's head
frame: the pushed frame's parent (the old head) survives the body because
preservation keeps parent links intact. -/
theorem presPushPop {σ σ1 : InterpState}
    (hP : Pres (σ.withEnv Environment.push) σ1) :
    Pres σ (σ1.withEnv Environment.pop) := by
  obtain ⟨h1, h2, h3, h4, h5, h6⟩ := hP
  have hlen : (σ.withEnv Environment.push).env.frames.length
      = σ.env.frames.length + 1 := by
    simp [InterpState.withEnv, Environment.push]
  have hparent : (σ1.env.frameAt σ.env.frames.length).parent = some σ.env.head := by
    have hstep := h5 σ.env.frames.length (by rw [hlen]; omega)
    rw [hstep]
    simp [InterpState.withEnv, Environment.push, Environment.frameAt,
      list_getElem?_concat_length]
  have hh : σ1.env.head = σ.env.frames.length := h1
  refine ⟨?_, h2, h3, ?_, ?_, fun hok => h6 hok⟩
  · show ((σ1.env.frameAt σ1.env.head).parent).getD σ1.env.head = σ.env.head
    rw [hh, hparent]
    rfl
  · show σ.env.frames.length ≤ σ1.env.frames.length
    rw [hlen] at h4
    omega
  · intro i hi
    show (σ1.env.frameAt i).parent = (σ.env.frameAt i).parent
    have hstep := h5 i (by rw [hlen]; omega)
    rw [hstep]
    simp [InterpState.withEnv, Environment.push, Environment.frameAt,
      list_getElem?_append_left σ.env.frames _ i hi]

/-- Completing a call body between `push_closure` and `pop_closure` restores
the caller's head frame and closure stack, given that parameter binding kept
the environment shape. -/
theorem presPushClosurePop {σ2 σ4 σ5 : InterpState} {cap : Nat}
    (hs4c : σ4.env.closureStack
      = (σ2.withEnv (fun env => env.pushClosure cap)).env.closureStack)
    (hs4g : σ4.env.global = (σ2.withEnv (fun env => env.pushClosure cap)).env.global)
    (hs4l : σ4.env.frames.length
      = (σ2.withEnv (fun env => env.pushClosure cap)).env.frames.length)
    (hs4p : ∀ j, (σ4.env.frameAt j).parent
      = ((σ2.withEnv (fun env => env.pushClosure cap)).env.frameAt j).parent)
    (hs4f : σ4.loxFuns = σ2.loxFuns)
    (hP : Pres σ4 σ5) :
    Pres σ2 (σ5.withEnv Environment.popClosure) := by
  obtain ⟨p1, p2, p3, p4, p5, p6⟩ := hP
  have hcs : σ5.env.closureStack = σ2.env.head :: σ2.env.closureStack :=
    p2.trans hs4c
  have hpop : σ5.env.popClosure
      = { σ5.env with head := σ2.env.head, closureStack := σ2.env.closureStack } := by
    simp [Environment.popClosure, hcs]
  have hl4 : σ4.env.frames.length = σ2.env.frames.length + 1 := by
    rw [hs4l]
    simp [InterpState.withEnv, Environment.pushClosure]
  refine ⟨?_, ?_, ?_, ?_, ?_, ?_⟩
  · show (σ5.env.popClosure).head = σ2.env.head
    rw [hpop]
  · show (σ5.env.popClosure).closureStack = σ2.env.closureStack
    rw [hpop]
  · show (σ5.env.popClosure).global = σ2.env.global
    rw [hpop]
    exact p3.trans hs4g
  · show σ2.env.frames.length ≤ (σ5.env.popClosure).frames.length
    rw [hpop]
    show σ2.env.frames.length ≤ σ5.env.frames.length
    omega
  · intro i hi
    show ((σ5.env.popClosure).frameAt i).parent = (σ2.env.frameAt i).parent
    have hfr : (σ5.env.popClosure).frameAt i = σ5.env.frameAt i := by
      rw [hpop]
      rfl
    rw [hfr, p5 i (by omega), hs4p i]
    simp [InterpState.withEnv, Environment.pushClosure, Environment.frameAt,
      list_getElem?_append_left σ2.env.frames _ i hi]
  · intro hok
    have h4ok : stateOK σ4 = true := by
      simp only [stateOK, hs4f]
      exact hok
    exact p6 h4ok

/-- Binding distinct fresh parameter names never fails, changes only the
head frame's value map, and leaves the function arena untouched. -/
theorem defineParamsOk : ∀ (params : List Identifier) (vals : List LoxValue)
    (σ : InterpState),
    distinctNames (params.map (fun a => a.name)) = true →
    (∀ p, p ∈ params → alGet (σ.env.frameAt σ.env.head).values p.name = none) →
    (defineParams params vals σ).1 = .ok ()
    ∧ (defineParams params vals σ).2.env.head = σ.env.head
    ∧ (defineParams params vals σ).2.env.closureStack = σ.env.closureStack
    ∧ (defineParams params vals σ).2.env.global = σ.env.global
    ∧ (defineParams params vals σ).2.env.frames.length = σ.env.frames.length
    ∧ (∀ j, ((defineParams params vals σ).2.env.frameAt j).parent
        = (σ.env.frameAt j).parent)
    ∧ (defineParams params vals σ).2.loxFuns = σ.loxFuns := by
  intro params
  induction params with
  | nil =>
    intro vals σ _ _
    exact ⟨rfl, rfl, rfl, rfl, rfl, fun j => rfl, rfl⟩
  | cons p ps ih =>
    intro vals σ hdist hfresh
    cases vals with
    | nil => exact ⟨rfl, rfl, rfl, rfl, rfl, fun j => rfl, rfl⟩
    | cons v vs =>
      have hnone : alGet (σ.env.frameAt σ.env.head).values p.name = none :=
        hfresh p (List.mem_cons_self p ps)
      simp only [List.map_cons, distinctNames, Bool.and_eq_true] at hdist
      obtain ⟨hnotin, hdist'⟩ := hdist
      have hnotin' : ¬ p.name ∈ ps.map (fun a => a.name) := by
        simpa using hnotin
      have hok1 : (σ.envDefine p v).1 = .ok () := by
        simp [InterpState.envDefine, Environment.define, hnone]
      rcases hd : σ.envDefine p v with ⟨r0, σ0⟩
      rw [hd] at hok1
      simp at hok1
      subst hok1
      have hσ0 : σ0 = (σ.envDefine p v).2 := by
        rw [hd]
      have hstep : defineParams (p :: ps) (v :: vs) σ = defineParams ps vs σ0 := by
        simp [defineParams, hd]
      have henv2 : σ0.env = (σ.env.define p v).2 := by
        rw [hσ0]
        exact envDefineEnv σ p v
      have hfuns : σ0.loxFuns = σ.loxFuns := by
        rw [hσ0]
        exact envDefineFuns σ p v
      obtain ⟨d1, d2, d3, d4, d5⟩ := definePres σ.env p v
      have hfresh' : ∀ q, q ∈ ps →
          alGet (σ0.env.frameAt σ0.env.head).values q.name = none := by
        intro q hq
        have hne : p.name ≠ q.name := fun hcon =>
          hnotin' (hcon ▸ List.mem_map_of_mem (fun a => a.name) hq)
        rw [henv2, define_head_values σ.env p v hnone q.name hne]
        exact hfresh q (List.mem_cons_of_mem p hq)
      obtain ⟨i1, i2, i3, i4, i5, i6, i7⟩ := ih vs σ0 hdist' hfresh'
      rw [hstep]
      exact ⟨i1,
        by rw [i2, henv2, d1],
        by rw [i3, henv2, d2],
        by rw [i4, henv2, d3],
        by rw [i5, henv2, d4],
        fun j => by rw [i6 j, henv2, d5 j],
        by rw [i7, hfuns]⟩


/-- The master preservation induction: under a clean function arena, every
evaluator function preserves the environment's head frame, closure stack
and global, never shrinks the frame arena, keeps parent links of existing
frames, and preserves arena cleanliness. -/
theorem presAt : ∀ n : Nat,
    (∀ stmts σ r σ', stateOK σ = true → stmtsOK stmts = true →
        interpRun n stmts σ = some (r, σ') → Pres σ σ')
    ∧ (∀ s σ r σ', stateOK σ = true → stmtOK s = true →
        interpVisitStatement n s σ = some (r, σ') → Pres σ σ')
    ∧ (∀ c b σ r σ', stateOK σ = true → blockOK b = true →
        interpWhile n c b σ = some (r, σ') → Pres σ σ')
    ∧ (∀ b σ r σ', stateOK σ = true → blockOK b = true →
        interpRunBlock n b σ = some (r, σ') → Pres σ σ')
    ∧ (∀ e σ r σ', stateOK σ = true →
        interpVisitExpression n e σ = some (r, σ') → Pres σ σ')
    ∧ (∀ l op rr σ r σ', stateOK σ = true →
        interpVisitBinary n l op rr σ = some (r, σ') → Pres σ σ')
    ∧ (∀ op rr σ r σ', stateOK σ = true →
        interpVisitUnary n op rr σ = some (r, σ') → Pres σ σ')
    ∧ (∀ t vE σ r σ', stateOK σ = true →
        interpVisitAssignment n t vE σ = some (r, σ') → Pres σ σ')
    ∧ (∀ l op rr σ r σ', stateOK σ = true →
        interpVisitLogical n l op rr σ = some (r, σ') → Pres σ σ')
    ∧ (∀ args σ r σ', stateOK σ = true →
        interpEvalArgs n args σ = some (r, σ') → Pres σ σ')
    ∧ (∀ ca d args σ r σ', stateOK σ = true →
        interpVisitCall n ca d args σ = some (r, σ') → Pres σ σ') := by
  intro n
  induction n with
  | zero =>
    refine ⟨fun stmts σ r σ' _ _ h => ?_, fun s σ r σ' _ _ h => ?_,
        fun c b σ r σ' _ _ h => ?_, fun b σ r σ' _ _ h => ?_,
        fun e σ r σ' _ h => ?_, fun l op rr σ r σ' _ h => ?_,
        fun op rr σ r σ' _ h => ?_, fun t vE σ r σ' _ h => ?_,
        fun l op rr σ r σ' _ h => ?_, fun args σ r σ' _ h => ?_,
        fun ca d args σ r σ' _ h => ?_⟩ <;>
      simp [interpRun, interpVisitStatement, interpWhile, interpRunBlock,
        interpVisitExpression, interpVisitBinary, interpVisitUnary,
        interpVisitAssignment, interpVisitLogical, interpEvalArgs,
        interpVisitCall, interpAt_zero, stepNone] at h
  | succ n ih =>
    obtain ⟨ihR, ihS, ihW, ihB, ihE, ihBin, ihUn, ihAsg, ihLog, ihAr, ihC⟩ := ih
    refine ⟨?_, ?_, ?_, ?_, ?_, ?_, ?_, ?_, ?_, ?_, ?_⟩
    · intro stmts σ r σ' hok hso h
      cases stmts with
      | nil =>
        rw [someSnd h]
        exact presRefl σ
      | cons s rest =>
        simp only [stmtsOK, Bool.and_eq_true] at hso
        obtain ⟨hs1, hrest⟩ := hso
        simp only [interpRun, interpAt_succ, mkStep] at h
        simp only [visitStatementF_eq, runF_eq] at h
        split at h
        · exact Option.noConfusion h
        · rename_i er σ0 heq
          rw [someSnd h]
          exact ihS s σ (.error er) σ0 hok hs1 heq
        · rename_i v σ0 heq
          rw [someSnd h]
          exact ihS s σ (.ok (.ret v)) σ0 hok hs1 heq
        · rename_i σ0 heq
          have hP1 : Pres σ σ0 := ihS s σ (.ok .normal) σ0 hok hs1 heq
          exact presTrans hP1 (ihR rest σ0 r σ' (presStateOK hP1 hok) hrest h)
    · intro s σ r σ' hok hso h
      cases s with
      | nop =>
        rw [someSnd h]
        exact presRefl σ
      | expression e =>
        simp only [interpVisitStatement, interpAt_succ, mkStep] at h
        simp only [visitExpressionF_eq] at h
        split at h
        · exact Option.noConfusion h
        · rename_i er σ0 heq
          rw [someSnd h]
          exact ihE e σ (.error er) σ0 hok heq
        · rename_i v σ0 heq
          rw [someSnd h]
          exact ihE e σ (.ok v) σ0 hok heq
      | print e =>
        simp only [interpVisitStatement, interpAt_succ, mkStep] at h
        simp only [visitExpressionF_eq] at h
        split at h
        · exact Option.noConfusion h
        · rename_i er σ0 heq
          rw [someSnd h]
          exact ihE e σ (.error er) σ0 hok heq
        · rename_i v σ0 heq
          rw [someSnd h]
          exact presTrans (ihE e σ (.ok v) σ0 hok heq) (presOfEnvEq rfl rfl)
      | varDecl name init =>
        cases init with
        | none =>
          simp only [interpVisitStatement, interpAt_succ, mkStep] at h
          split at h
          · rename_i er σ1 heq
            rw [someSnd h]
            have hD := presEnvDefine σ name LoxValue.nil
            rw [heq] at hD
            exact hD
          · rename_i σ1 heq
            rw [someSnd h]
            have hD := presEnvDefine σ name LoxValue.nil
            rw [heq] at hD
            exact hD
        | some ini =>
          simp only [interpVisitStatement, interpAt_succ, mkStep] at h
          simp only [visitExpressionF_eq] at h
          split at h
          · exact Option.noConfusion h
          · rename_i er σ0 heq
            rw [someSnd h]
            exact ihE ini σ (.error er) σ0 hok heq
          · rename_i v σ0 heq
            have hP1 : Pres σ σ0 := ihE ini σ (.ok v) σ0 hok heq
            split at h
            · rename_i er σ1 heq2
              rw [someSnd h]
              have hD := presEnvDefine σ0 name v
              rw [heq2] at hD
              exact presTrans hP1 hD
            · rename_i σ1 heq2
              rw [someSnd h]
              have hD := presEnvDefine σ0 name v
              rw [heq2] at hD
              exact presTrans hP1 hD
      | block b =>
        simp only [interpVisitStatement, interpAt_succ, mkStep] at h
        simp only [runBlockF_eq] at h
        exact ihB b σ r σ' hok hso h
      | ifS condition thenB elseB =>
        cases elseB with
        | some b =>
          have hso' : (blockOK thenB && blockOK b) = true := hso
          simp only [Bool.and_eq_true] at hso'
          obtain ⟨hthen, helse⟩ := hso'
          simp only [interpVisitStatement, interpAt_succ, mkStep] at h
          simp only [visitExpressionF_eq, runBlockF_eq] at h
          split at h
          · exact Option.noConfusion h
          · rename_i er σ0 heq
            rw [someSnd h]
            exact ihE condition σ (.error er) σ0 hok heq
          · rename_i c σ0 heq
            have hP1 : Pres σ σ0 := ihE condition σ (.ok c) σ0 hok heq
            have hok0 : stateOK σ0 = true := presStateOK hP1 hok
            split at h
            · exact presTrans hP1 (ihB thenB σ0 r σ' hok0 hthen h)
            · exact presTrans hP1 (ihB b σ0 r σ' hok0 helse h)
        | none =>
          have hso' : (blockOK thenB && true) = true := hso
          simp only [Bool.and_eq_true] at hso'
          obtain ⟨hthen, -⟩ := hso'
          simp only [interpVisitStatement, interpAt_succ, mkStep] at h
          simp only [visitExpressionF_eq, runBlockF_eq] at h
          split at h
          · exact Option.noConfusion h
          · rename_i er σ0 heq
            rw [someSnd h]
            exact ihE condition σ (.error er) σ0 hok heq
          · rename_i c σ0 heq
            have hP1 : Pres σ σ0 := ihE condition σ (.ok c) σ0 hok heq
            have hok0 : stateOK σ0 = true := presStateOK hP1 hok
            split at h
            · exact presTrans hP1 (ihB thenB σ0 r σ' hok0 hthen h)
            · rw [someSnd h]
              exact hP1
      | whileS condition body =>
        simp only [interpVisitStatement, interpAt_succ, mkStep] at h
        simp only [whileF_eq] at h
        exact ihW condition body σ r σ' hok hso h
      | funDecl name args body =>
        have hfn : (distinctNames (args.map (fun a => a.name)) && blockOK body) = true :=
          hso
        simp only [interpVisitStatement, interpAt_succ, mkStep] at h
        split at h
        · rename_i er σ1 heq
          rw [someSnd h]
          have hD := presDefineFunction σ name args body hfn
          rw [heq] at hD
          exact hD
        · rename_i σ1 heq
          rw [someSnd h]
          have hD := presDefineFunction σ name args body hfn
          rw [heq] at hD
          exact hD
      | ret value =>
        cases value with
        | none =>
          rw [someSnd h]
          exact presRefl σ
        | some e =>
          simp only [interpVisitStatement, interpAt_succ, mkStep] at h
          simp only [visitExpressionF_eq] at h
          split at h
          · exact Option.noConfusion h
          · rename_i er σ0 heq
            rw [someSnd h]
            exact ihE e σ (.error er) σ0 hok heq
          · rename_i v σ0 heq
            rw [someSnd h]
            exact ihE e σ (.ok v) σ0 hok heq
    · intro condition body σ r σ' hok hbo h
      simp only [interpWhile, interpAt_succ, mkStep] at h
      simp only [visitExpressionF_eq, runBlockF_eq, whileF_eq] at h
      split at h
      · exact Option.noConfusion h
      · rename_i er σ0 heq
        rw [someSnd h]
        exact ihE condition σ (.error er) σ0 hok heq
      · rename_i c σ0 heq
        have hP1 : Pres σ σ0 := ihE condition σ (.ok c) σ0 hok heq
        have hok0 : stateOK σ0 = true := presStateOK hP1 hok
        split at h
        · split at h
          · exact Option.noConfusion h
          · rename_i er σ1 heq2
            rw [someSnd h]
            exact presTrans hP1 (ihB body σ0 (.error er) σ1 hok0 hbo heq2)
          · rename_i v σ1 heq2
            rw [someSnd h]
            exact presTrans hP1 (ihB body σ0 (.ok (.ret v)) σ1 hok0 hbo heq2)
          · rename_i σ1 heq2
            have hPB : Pres σ0 σ1 := ihB body σ0 (.ok .normal) σ1 hok0 hbo heq2
            exact presTrans (presTrans hP1 hPB)
              (ihW condition body σ1 r σ' (presStateOK hPB hok0) hbo h)
        · rw [someSnd h]
          exact hP1
    · intro b σ r σ' hok hbo h
      cases b with
      | mk stmts =>
        simp only [interpRunBlock, interpAt_succ, mkStep] at h
        simp only [runF_eq] at h
        split at h
        · exact Option.noConfusion h
        · rename_i r1 σ1 heq
          rw [someSnd h]
          have hs : stmtsOK stmts = true := hbo
          have hokp : stateOK (σ.withEnv Environment.push) = true := hok
          exact presPushPop (ihR stmts (σ.withEnv Environment.push) r1 σ1 hokp hs heq)
    · intro e σ r σ' hok h
      rw [visitExpression_rewrap] at h
      rcases hin : interpVisitExpressionInner (n + 1) e σ with _ | ⟨r0, σ0⟩
      · rw [hin] at h
        exact Option.noConfusion h
      · rw [hin] at h
        have hσ : σ' = σ0 := by
          rcases r0 with er | v
          · cases er <;> exact someSnd h
          · exact someSnd h
        rw [hσ]
        clear h hσ
        cases e with
        | binary l op rr =>
          simp only [interpVisitExpressionInner, interpAt_succ, mkStep] at hin
          simp only [visitBinaryF_eq] at hin
          exact ihBin l op rr σ r0 σ0 hok hin
        | grouping g =>
          simp only [interpVisitExpressionInner, interpAt_succ, mkStep] at hin
          simp only [visitExpressionF_eq] at hin
          exact ihE g σ r0 σ0 hok hin
        | literal lit =>
          rw [someSnd hin]
          exact presRefl σ
        | unary op rr =>
          simp only [interpVisitExpressionInner, interpAt_succ, mkStep] at hin
          simp only [visitUnaryF_eq] at hin
          exact ihUn op rr σ r0 σ0 hok hin
        | identifier ident =>
          rw [someSnd hin]
          exact presRefl σ
        | assignment t vE =>
          simp only [interpVisitExpressionInner, interpAt_succ, mkStep] at hin
          simp only [visitAssignmentF_eq] at hin
          exact ihAsg t vE σ r0 σ0 hok hin
        | logical l op rr =>
          simp only [interpVisitExpressionInner, interpAt_succ, mkStep] at hin
          simp only [visitLogicalF_eq] at hin
          exact ihLog l op rr σ r0 σ0 hok hin
        | call ca d args =>
          simp only [interpVisitExpressionInner, interpAt_succ, mkStep] at hin
          simp only [visitCallF_eq] at hin
          exact ihC ca d args σ r0 σ0 hok hin
    · intro l op rr σ r σ' hok h
      simp only [interpVisitBinary, interpAt_succ, mkStep] at h
      simp only [visitExpressionF_eq] at h
      split at h
      · exact Option.noConfusion h
      · rename_i er σ1 heq
        rw [someSnd h]
        exact ihE l σ (.error er) σ1 hok heq
      · rename_i lv σ1 heq
        have hP1 : Pres σ σ1 := ihE l σ (.ok lv) σ1 hok heq
        have hok1 : stateOK σ1 = true := presStateOK hP1 hok
        split at h
        · exact Option.noConfusion h
        · rename_i er σ2 heq2
          rw [someSnd h]
          exact presTrans hP1 (ihE rr σ1 (.error er) σ2 hok1 heq2)
        · rename_i rv σ2 heq2
          have hP2 : Pres σ1 σ2 := ihE rr σ1 (.ok rv) σ2 hok1 heq2
          cases op <;> (rw [someSnd h]; exact presTrans (presTrans hP1 hP2) (presSetDebug σ2 _))
    · intro op rr σ r σ' hok h
      simp only [interpVisitUnary, interpAt_succ, mkStep] at h
      simp only [visitExpressionF_eq] at h
      split at h
      · exact Option.noConfusion h
      · rename_i er σ1 heq
        rw [someSnd h]
        exact ihE rr σ (.error er) σ1 hok heq
      · rename_i v σ1 heq
        have hP1 : Pres σ σ1 := ihE rr σ (.ok v) σ1 hok heq
        cases op <;> (rw [someSnd h]; exact presTrans hP1 (presSetDebug σ1 _))
    · intro t vE σ r σ' hok h
      simp only [interpVisitAssignment, interpAt_succ, mkStep] at h
      simp only [visitExpressionF_eq] at h
      split at h
      · exact Option.noConfusion h
      · rename_i er σ1 heq
        rw [someSnd h]
        exact ihE vE σ (.error er) σ1 hok heq
      · rename_i v σ1 heq
        have hP1 : Pres σ σ1 := ihE vE σ (.ok v) σ1 hok heq
        split at h
        · rename_i v' env' heq2
          rw [someSnd h]
          have hA := presAssign σ1 t.name t.id v
          rw [heq2] at hA
          exact presTrans hP1 hA
        · rename_i env' heq2
          rw [someSnd h]
          have hA := presAssign σ1 t.name t.id v
          rw [heq2] at hA
          exact presTrans hP1 hA
    · intro l op rr σ r σ' hok h
      cases op with
      | or d =>
        simp only [interpVisitLogical, interpAt_succ, mkStep] at h
        simp only [visitExpressionF_eq] at h
        split at h
        · exact Option.noConfusion h
        · rename_i er σ1 heq
          rw [someSnd h]
          exact ihE l σ (.error er) σ1 hok heq
        · rename_i lv σ1 heq
          have hP1 : Pres σ σ1 := ihE l σ (.ok lv) σ1 hok heq
          have hok1 : stateOK σ1 = true := presStateOK hP1 hok
          split at h
          · rw [someSnd h]
            exact presTrans hP1 (presSetDebug σ1 d)
          · split at h
            · exact Option.noConfusion h
            · rename_i er σ2 heq2
              rw [someSnd h]
              exact presTrans (presTrans hP1 (presSetDebug σ1 d))
                (ihE rr (σ1.setDebug d) (.error er) σ2 hok1 heq2)
            · rename_i rv σ2 heq2
              rw [someSnd h]
              exact presTrans (presTrans hP1 (presSetDebug σ1 d))
                (ihE rr (σ1.setDebug d) (.ok rv) σ2 hok1 heq2)
      | and d =>
        simp only [interpVisitLogical, interpAt_succ, mkStep] at h
        simp only [visitExpressionF_eq] at h
        split at h
        · exact Option.noConfusion h
        · rename_i er σ1 heq
          rw [someSnd h]
          exact ihE l σ (.error er) σ1 hok heq
        · rename_i lv σ1 heq
          have hP1 : Pres σ σ1 := ihE l σ (.ok lv) σ1 hok heq
          have hok1 : stateOK σ1 = true := presStateOK hP1 hok
          split at h
          · rw [someSnd h]
            exact presTrans hP1 (presSetDebug σ1 d)
          · split at h
            · exact Option.noConfusion h
            · rename_i er σ2 heq2
              rw [someSnd h]
              exact presTrans (presTrans hP1 (presSetDebug σ1 d))
                (ihE rr (σ1.setDebug d) (.error er) σ2 hok1 heq2)
            · rename_i rv σ2 heq2
              rw [someSnd h]
              exact presTrans (presTrans hP1 (presSetDebug σ1 d))
                (ihE rr (σ1.setDebug d) (.ok rv) σ2 hok1 heq2)
    · intro args σ r σ' hok h
      cases args with
      | nil =>
        rw [someSnd h]
        exact presRefl σ
      | cons a rest =>
        simp only [interpEvalArgs, interpAt_succ, mkStep] at h
        simp only [visitExpressionF_eq, evalArgsF_eq] at h
        split at h
        · exact Option.noConfusion h
        · rename_i er σ1 heq
          rw [someSnd h]
          exact ihE a σ (.error er) σ1 hok heq
        · rename_i v σ1 heq
          have hP1 : Pres σ σ1 := ihE a σ (.ok v) σ1 hok heq
          have hok1 : stateOK σ1 = true := presStateOK hP1 hok
          split at h
          · exact Option.noConfusion h
          · rename_i er σ2 heq2
            rw [someSnd h]
            exact presTrans hP1 (ihAr rest σ1 (.error er) σ2 hok1 heq2)
          · rename_i vsd σ2 heq2
            rw [someSnd h]
            exact presTrans hP1 (ihAr rest σ1 (.ok vsd) σ2 hok1 heq2)
    · intro ca d args σ r σ' hok h
      simp only [interpVisitCall, interpAt_succ, mkStep] at h
      simp only [visitExpressionF_eq, evalArgsF_eq, runF_eq] at h
      split at h
      · exact Option.noConfusion h
      · rename_i er σ1 heq
        rw [someSnd h]
        exact ihE ca σ (.error er) σ1 hok heq
      · rename_i cv σ1 heq
        have hP1 : Pres σ σ1 := ihE ca σ (.ok cv) σ1 hok heq
        have hok1 : stateOK σ1 = true := presStateOK hP1 hok
        split at h
        · exact Option.noConfusion h
        · rename_i er σ2 heq2
          rw [someSnd h]
          exact presTrans hP1 (ihAr args σ1 (.error er) σ2 hok1 heq2)
        · rename_i argValues σ2 heq2
          have hP2 : Pres σ σ2 :=
            presTrans hP1 (ihAr args σ1 (.ok argValues) σ2 hok1 heq2)
          have hok2 : stateOK σ2 = true := presStateOK hP2 hok
          split at h
          · rename_i fid
            split at h
            · rw [someSnd h]
              exact hP2
            · rename_i harity
              have hfd := stateOK_getLoxFun hok2 fid
              simp only [funOK, Bool.and_eq_true] at hfd
              obtain ⟨hdist, hbody⟩ := hfd
              have hfresh3 : ∀ p, p ∈ (σ2.getLoxFun fid).args →
                  alGet (((σ2.withEnv (fun env => env.pushClosure
                      (σ2.getLoxFun fid).capturedScope)).env.frameAt
                    ((σ2.withEnv (fun env => env.pushClosure
                      (σ2.getLoxFun fid).capturedScope)).env.head)).values) p.name
                    = none := by
                intro q hq
                show alGet (((σ2.env.pushClosure
                    (σ2.getLoxFun fid).capturedScope)).frameAt
                  ((σ2.env.pushClosure (σ2.getLoxFun fid).capturedScope)).head).values
                  q.name = none
                simp [Environment.pushClosure, Environment.frameAt,
                  list_getElem?_concat_length, alGet]
              obtain ⟨dp1, dp2, dp3, dp4, dp5, dp6, dp7⟩ :=
                defineParamsOk (σ2.getLoxFun fid).args argValues
                  (σ2.withEnv (fun env => env.pushClosure
                    (σ2.getLoxFun fid).capturedScope))
                  hdist hfresh3
              split at h
              · rename_i e σ4 heq3
                rw [heq3] at dp1
                simp at dp1
              · rename_i σ4 heq3
                rw [heq3] at dp2 dp3 dp4 dp5 dp6 dp7
                have h4ok : stateOK σ4 = true := by
                  simp only [stateOK]
                  rw [show σ4.loxFuns = σ2.loxFuns from dp7]
                  exact hok2
                split at h
                · exact Option.noConfusion h
                · rename_i bodyResult σ5 heq5
                  rw [someSnd h]
                  have hbodyOK : stmtsOK (σ2.getLoxFun fid).body.statements = true := by
                    rw [blockOK_statements]
                    exact hbody
                  have hP45 : Pres σ4 σ5 :=
                    ihR (σ2.getLoxFun fid).body.statements σ4 bodyResult σ5 h4ok
                      hbodyOK heq5
                  exact presTrans hP2 (presPushClosurePop dp3 dp4 dp5 dp6 dp7 hP45)
          · rename_i fid
            split at h
            · rw [someSnd h]
              exact hP2
            · split at h
              · rename_i e σ3 heq3
                rw [someSnd h]
                have hfs : σ3 = σ2 := by
                  have hr := runForeinImpl_state (σ2.getForeinFun fid).impl argValues σ2
                  rw [heq3] at hr
                  exact hr
                rw [hfs]
                exact hP2
              · rename_i v σ3 heq3
                rw [someSnd h]
                have hfs : σ3 = σ2 := by
                  have hr := runForeinImpl_state (σ2.getForeinFun fid).impl argValues σ2
                  rw [heq3] at hr
                  exact hr
                rw [hfs]
                exact hP2
          · rw [someSnd h]
            exact hP2

/-- C7: equality on runtime values is total and never produces an error;
values of different kinds are simply unequal (no coercion); numbers
follow IEEE-754 `==` (`NaN == NaN` is false, and equal numeric values —
such as the doubles denoted by the literals `1` and `1.0`, or two
representations of the same fraction — compare equal); `Nil` equals only
`Nil`; interpreted and native callables compare by identity of the shared
object (`Rc::ptr_eq`, modelled by arena-index equality), never
structurally: running `mk()` twice yields two closures with identical
source text (distinct arena entries 1 and 2) and `x == y` is false. -/
theorem c7_equality_total_identity :
    (∀ l r, LoxValue.equal l r = .ok (.bool (l.beq r))
          ∧ LoxValue.notEqual l r = .ok (.bool (!l.beq r)))
  ∧ (∀ l r : LoxValue, l.kind ≠ r.kind → l.beq r = false)
  ∧ LoxValue.beq (.number .nan) (.number .nan) = false
  ∧ LoxValue.beq (.number (.val 1 1)) (.number (.val 1 1)) = true
  ∧ LoxValue.beq (.number (.val 2 2)) (.number (.val 1 1)) = true
  ∧ LoxValue.beq (.string "x") (.number (.val 1 1)) = false
  ∧ (∀ v, LoxValue.beq .nil v = true ↔ v = .nil)
  ∧ (∀ i j, LoxValue.beq (.loxFun i) (.loxFun j) = (i == j))
  ∧ (∀ i j, LoxValue.beq (.foreinFun i) (.foreinFun j) = (i == j))
  ∧ (∀ i j, LoxValue.beq (.loxFun i) (.foreinFun j) = false)
  ∧ finalGlobal 200 progClosureEq "same" = some (some (.bool false))
  ∧ (runInterp 200 progClosureEq).map
      (fun p => (p.2.env.getGlobal "x", p.2.env.getGlobal "y"))
      = some (some (.loxFun 1), some (.loxFun 2)) := by
  refine ⟨fun l r => ⟨rfl, rfl⟩, ?_, by decide, by decide, by decide, by decide,
    ?_, fun i j => rfl, fun i j => rfl, fun i j => rfl, by decide, by decide⟩
  · intro l r h
    cases l <;> cases r <;> simp_all [LoxValue.beq, LoxValue.kind]
  · intro v
    cases v <;> simp [LoxValue.beq]

/-- C7 witness: the cross-kind conjunct applied to `"x"` and the number
1, and the nil conjunct applied to `Nil`. -/
theorem c7_equality_witness :
    LoxValue.beq (.string "x") (.number (.val 1 1)) = false
    ∧ (LoxValue.beq .nil .nil = true ↔ (LoxValue.nil = .nil)) :=
  ⟨c7_equality_total_identity.2.1 (.string "x") (.number (.val 1 1)) (by decide),
   c7_equality_total_identity.2.2.2.2.2.2.1 .nil⟩

/-- C6: `Environment::define` fails — with a user-facing `RuntimeError` —
exactly when the name already exists in the head frame itself (ancestor
frames are irrelevant, so shadowing across frames is allowed); on failure
the environment is completely unchanged; on success the binding is
inserted into the head frame and every other frame is untouched. -/
theorem c6_define_head_frame_spec (env : Environment) (ident : Identifier)
    (value : LoxValue) (hlt : env.head < env.frames.length) :
    ((∃ l p m, (env.define ident value).1 = .error (.runtimeError l p m)) ↔
      (alGet (env.frameAt env.head).values ident.name).isSome = true)
    ∧ ((env.define ident value).1.isOk = false → (env.define ident value).2 = env)
    ∧ ((env.define ident value).1.isOk = true →
        ((env.define ident value).2.frameAt env.head).values
            = alInsert (env.frameAt env.head).values ident.name ⟨value, ident.debugInfo⟩
        ∧ (env.define ident value).2.head = env.head
        ∧ (env.define ident value).2.closureStack = env.closureStack
        ∧ (env.define ident value).2.global = env.global
        ∧ ∀ i, i ≠ env.head → (env.define ident value).2.frameAt i = env.frameAt i) := by
  have hd : env.define ident value =
      match alGet (env.frameAt env.head).values ident.name with
      | some existing =>
          (.error (.runtimeError ident.debugInfo.line ident.debugInfo.position
            ("Variable " ++ ident.name ++ " already defined at "
              ++ toString existing.definedAt.line ++ ":"
              ++ toString existing.definedAt.position ++ "!")), env)
      | none =>
          (.ok (), { env with frames := (env.frames.set env.head
            (Frame.mk (alInsert (env.frameAt env.head).values ident.name
                ⟨value, ident.debugInfo⟩)
              ((env.frameAt env.head).parent))) }) := rfl
  rcases hg : alGet (env.frameAt env.head).values ident.name with _ | v
  · rw [hg] at hd
    simp only [] at hd
    rw [hd]
    refine ⟨?_, ?_, ?_⟩
    · simp [hg]
    · intro h
      simp [Except.isOk, Except.toBool] at h
    · intro _
      refine ⟨?_, rfl, rfl, rfl, ?_⟩
      · show ((env.frames.set env.head _)[env.head]?.getD Frame.empty).values = _
        rw [list_getElem?_set_self _ _ _ hlt]
        rfl
      · intro i hi
        show (env.frames.set env.head _)[i]?.getD Frame.empty = _
        rw [list_getElem?_set_ne _ _ _ _ (fun h => hi h.symm)]
        rfl
  · rw [hg] at hd
    simp only [] at hd
    rw [hd]
    refine ⟨?_, ?_, ?_⟩
    · simp [hg]
    · intro _
      rfl
    · intro h
      simp [Except.isOk, Except.toBool] at h

/-- C6 witness: applying the specification to a concrete environment in
which the head frame is empty but the global (ancestor) frame already
binds the name: define succeeds and inserts into the head frame. -/
theorem c6_define_witness :
    ((witnessEnv.define witnessIdent (.number (.val 7 1))).2.frameAt
        witnessEnv.head).values
      = alInsert (witnessEnv.frameAt witnessEnv.head).values witnessIdent.name
          ⟨.number (.val 7 1), witnessIdent.debugInfo⟩
    ∧ (witnessEnv.define witnessIdent (.number (.val 7 1))).2.head = witnessEnv.head :=
  ⟨((c6_define_head_frame_spec witnessEnv witnessIdent (.number (.val 7 1))
      (by decide)).2.2 (by rfl)).1,
   ((c6_define_head_frame_spec witnessEnv witnessIdent (.number (.val 7 1))
      (by decide)).2.2 (by rfl)).2.1⟩


/-- C9: `Interpreter::execute` never returns an `InternalRuntimeError` to
its caller — every completed execution yields either a success or an error
of another kind — and every `InternalRuntimeError` produced by the
expression dispatch is rewrapped by `visit_expression` into a
`RuntimeError` carrying the evaluator's currently tracked line and
position before propagating. -/
theorem c9_no_internal_error_escape :
    (∀ (fuel : Nat) (σ : InterpState) (stmts : List Statement) (t : AccessTable)
        (r : Except Error LoxResult) (σ' : InterpState),
        interpExecute fuel σ stmts t = some (r, σ') → isInternalError r = false)
    ∧ (∀ (n : Nat) (e : Expression) (σ σ0 : InterpState) (message : String),
        interpVisitExpressionInner (n + 1) e σ
          = some (.error (.internalRuntimeError message), σ0) →
        interpVisitExpression (n + 1) e σ
          = some (.error (.runtimeError σ0.line σ0.position message), σ0)) := by
  constructor
  · intro fuel σ stmts t r σ' h
    simp only [interpExecute] at h
    split at h
    · rw [someFst h]
      rfl
    · exact (stmtResultClean fuel).1 stmts _ r σ' h
  · intro n e σ σ0 message h
    rw [visitExpression_rewrap, h]

/-- C9 witness: executing `-"x";` completes with a rewrapped (non-internal)
error, and the dispatch-level `InternalRuntimeError` for the same
expression is rewrapped into a `RuntimeError` at the tracked location. -/
theorem c9_no_internal_error_escape_witness :
    isInternalError negateResult = false
    ∧ interpVisitExpression 3 negStringExpr InterpState.initial
      = some (.error (.runtimeError negateInnerState.line negateInnerState.position
          "Cannot negate: String(\"x\")"), negateInnerState) :=
  ⟨c9_no_internal_error_escape.1 6 InterpState.initial progNegate ⟨[]⟩
      negateResult negateState (by rfl),
   c9_no_internal_error_escape.2 2 negStringExpr InterpState.initial
      negateInnerState "Cannot negate: String(\"x\")" (by rfl)⟩


/-- C2 (amended): when every function object in the arena has pairwise
distinct parameter names and clean bodies (`stateOK`), every completed
evaluation of a call expression restores the environment's head frame and
closure stack — on normal completion, on `Return`, and on a propagated
runtime error.  Without that condition the claim is false: see
the duplicate-parameter counterexample, where the parameter-binding
`define` fails and the `?` return skips `pop_closure`. -/
theorem c2_call_frame_restoration_amended (n : Nat) (calle : Expression)
    (d : DebugInfo) (args : List Expression) (σ : InterpState)
    (r : Except Error LoxValue) (σ' : InterpState)
    (hok : stateOK σ = true)
    (h : interpVisitCall n calle d args σ = some (r, σ')) :
    σ'.env.head = σ.env.head ∧ σ'.env.closureStack = σ.env.closureStack := by
  have hP := (presAt n).2.2.2.2.2.2.2.2.2.2 calle d args σ r σ' hok h
  exact ⟨hP.1, hP.2.1⟩

/-- C2 witness: evaluating the call `f()` of a clean zero-parameter
function restores the head frame and the closure stack. -/
theorem c2_call_frame_restoration_amended_witness :
    c2StateAfter.env.head = c2State.env.head
    ∧ c2StateAfter.env.closureStack = c2State.env.closureStack :=
  c2_call_frame_restoration_amended 3 c2Callee (dgi 1 11) [] c2State
    c2Result c2StateAfter (by decide) (by rfl)

end RLox
